import Mathlib

/-!
# Verification of the declining-balance loan schedule engine

Shallow embedding of `src/apps/loan_schedules/api/services.py`.

Modelling conventions:
* Python `Decimal` values are modelled as exact rationals (`ℚ`); the code's
  explicit `quantize(..., ROUND_HALF_UP)` calls are modelled by `quantize2`
  (currency, 2 fractional digits) and `quantize8` (rates, 8 fractional
  digits).  `ROUND_HALF_UP` in Python's `decimal` rounds ties away from
  zero, which `roundHalfAwayZ` implements.
* Python strings are modelled as `List Char` (ASCII scope).
* `ValueError` raised by the services is modelled with `Except`; the two
  validation messages of the principal reducer are the `InvalidReduction`
  failure of the spec's taxonomy, the parsing/unit failures are
  `InvalidPeriodicity`.
* Django model rows (`LoanPayment`) are modelled as a list of `SchedLine`
  records ordered by `payment_number`; `transaction.atomic` rollback is
  modelled by `executeOrRollback`, which keeps the old list on failure.
-/

/-- `ROUND_HALF_UP` of Python's `decimal` module at integer precision:
round to the nearest integer, ties away from zero. -/
def roundHalfAwayZ (q : ℚ) : ℤ :=
  if 0 ≤ q then ⌊q + 1/2⌋ else -⌊-q + 1/2⌋

/-- `x.quantize(Decimal("0.01"), rounding=ROUND_HALF_UP)`. -/
def quantize2 (q : ℚ) : ℚ :=
  (roundHalfAwayZ (q * 100) : ℚ) / 100

/-- `x.quantize(Decimal("0.00000001"), rounding=ROUND_HALF_UP)`. -/
def quantize8 (q : ℚ) : ℚ :=
  (roundHalfAwayZ (q * 100000000) : ℚ) / 100000000

theorem roundHalfAwayZ_mono {a b : ℚ} (h : a ≤ b) :
    roundHalfAwayZ a ≤ roundHalfAwayZ b := by
  unfold roundHalfAwayZ
  split_ifs with ha hb hb
  · exact Int.floor_le_floor (by linarith)
  · exact absurd (le_trans ha h) hb
  · have h1 : (0:ℤ) ≤ ⌊-a + 1/2⌋ :=
      Int.le_floor.2 (by push_cast; linarith [lt_of_not_le ha])
    have h2 : (0:ℤ) ≤ ⌊b + 1/2⌋ :=
      Int.le_floor.2 (by push_cast; linarith)
    omega
  · have := Int.floor_le_floor (show -b + 1/2 ≤ -a + 1/2 by linarith)
    omega

theorem roundHalfAwayZ_intCast (k : ℤ) : roundHalfAwayZ (k : ℚ) = k := by
  unfold roundHalfAwayZ
  split_ifs with h
  · rw [show ((k:ℚ) + 1/2) = 1/2 + (k:ℚ) by ring, Int.floor_add_int]
    norm_num
  · rw [show (-(k:ℚ) + 1/2) = 1/2 + ((-k : ℤ):ℚ) by push_cast; ring,
      Int.floor_add_int]
    norm_num

theorem quantize2_mono {a b : ℚ} (h : a ≤ b) : quantize2 a ≤ quantize2 b := by
  unfold quantize2
  have := roundHalfAwayZ_mono (show a * 100 ≤ b * 100 by linarith)
  have : ((roundHalfAwayZ (a * 100) : ℚ)) ≤ (roundHalfAwayZ (b * 100) : ℚ) := by
    exact_mod_cast this
  linarith

theorem quantize2_zero : quantize2 0 = 0 := by
  unfold quantize2
  rw [show ((0:ℚ) * 100) = ((0:ℤ):ℚ) by norm_num, roundHalfAwayZ_intCast]
  norm_num

theorem quantize2_nonneg {a : ℚ} (h : 0 ≤ a) : 0 ≤ quantize2 a := by
  have := quantize2_mono h
  rwa [quantize2_zero] at this

/-- Exact currency values: an integer number of cents. -/
def IsCent (x : ℚ) : Prop := ∃ k : ℤ, x = (k : ℚ) / 100

theorem isCent_quantize2 (x : ℚ) : IsCent (quantize2 x) :=
  ⟨roundHalfAwayZ (x * 100), rfl⟩

theorem quantize2_isCent {x : ℚ} (h : IsCent x) : quantize2 x = x := by
  obtain ⟨k, rfl⟩ := h
  unfold quantize2
  rw [show ((k:ℚ) / 100 * 100) = (k : ℚ) by field_simp, roundHalfAwayZ_intCast]

theorem IsCent.sub {x y : ℚ} (hx : IsCent x) (hy : IsCent y) : IsCent (x - y) := by
  obtain ⟨a, rfl⟩ := hx; obtain ⟨b, rfl⟩ := hy
  exact ⟨a - b, by push_cast; ring⟩

theorem IsCent.add {x y : ℚ} (hx : IsCent x) (hy : IsCent y) : IsCent (x + y) := by
  obtain ⟨a, rfl⟩ := hx; obtain ⟨b, rfl⟩ := hy
  exact ⟨a + b, by push_cast; ring⟩

theorem isCent_zero : IsCent 0 := ⟨0, by norm_num⟩

/-! ## Periodicity parsing (`Period.from_string`) -/

/-- `Period` dataclass: numeric multiplier and unit character. -/
structure Period where
  value : ℤ
  unit : Char
deriving DecidableEq

/-- Characters stripped by Python's `int(str)` around the number
(ASCII whitespace scope of this model). -/
def isPySpace (c : Char) : Bool :=
  c = ' ' || c = '\t' || c = '\n' || c = '\r' || c.toNat = 11 || c.toNat = 12

/-- Digit run with optional single underscores between digits
(the shape accepted by Python's `int` after sign/whitespace handling);
the head character must be checked separately. -/
def digitsUnd : List Char → Bool
  | [] => true
  | '_' :: c :: t => c.isDigit && digitsUnd t
  | '_' :: [] => false
  | c :: t => c.isDigit && digitsUnd t

/-- Numeric value of a digit list (underscores removed beforehand). -/
def digitsVal (l : List Char) : ℕ :=
  l.foldl (fun a c => a * 10 + (c.toNat - '0'.toNat)) 0

/-- Unsigned core of Python's `int(str)`: digits with single internal
underscores, value of the digits. -/
def pyIntCore (l : List Char) : Option ℕ :=
  match l with
  | [] => none
  | c :: _ => if c.isDigit && digitsUnd l then some (digitsVal (l.filter (· ≠ '_'))) else none

/-- Python's `int(str)` (ASCII scope): optional surrounding whitespace,
optional single `+`/`-` sign, digits with single underscores between
digits.  Returns `none` where `int` raises `ValueError`. -/
def pyInt (cs : List Char) : Option ℤ :=
  let t := ((cs.dropWhile isPySpace).reverse.dropWhile isPySpace).reverse
  match t with
  | '+' :: rest => (pyIntCore rest).map (fun n => (n : ℤ))
  | '-' :: rest => (pyIntCore rest).map (fun n => -(n : ℤ))
  | _ => (pyIntCore t).map (fun n => (n : ℤ))

/-- The single failure kind of the periodicity services
(`ValueError` in the source, `InvalidPeriodicity` in the spec). -/
inductive PeriodicityError
  | invalid
deriving DecidableEq

namespace Period

/-- `Period.from_string`: length check, `int(periodicity[:-1])`,
then unit membership and positivity check, in source order. -/
def from_string (periodicity : List Char) : Except PeriodicityError Period :=
  if periodicity.length < 2 then .error .invalid
  else
    match pyInt periodicity.dropLast with
    | none => .error .invalid
    | some value =>
      if ¬(periodicity.getLastD ' ' = 'd' ∨ periodicity.getLastD ' ' = 'w' ∨
          periodicity.getLastD ' ' = 'm') ∨ value ≤ 0 then .error .invalid
      else .ok ⟨value, periodicity.getLastD ' '⟩

end Period

/-- The failure condition exactly as the claim states it: fewer than 2
characters, trailing character not a unit code, leading substring not a
non-negative integer literal (a non-empty run of decimal digits), or
parsed integer ≤ 0. -/
def specClaimedParseFailure (cs : List Char) : Bool :=
  cs.length < 2 ||
  !(cs.getLastD ' ' = 'd' || cs.getLastD ' ' = 'w' || cs.getLastD ' ' = 'm') ||
  !(!cs.dropLast.isEmpty && cs.dropLast.all Char.isDigit) ||
  digitsVal cs.dropLast = 0

/-- C5 (counterexample): the string `"+1d"` — whose leading substring
`"+1"` is not a non-negative integer literal — is nevertheless parsed
successfully, because Python's `int` accepts a leading sign.  So parsing
does not fail exactly on the claimed condition set. -/
theorem from_string_claim_counterexample :
    Period.from_string ['+', '1', 'd'] = .ok ⟨1, 'd'⟩ ∧
    specClaimedParseFailure ['+', '1', 'd'] = true := ⟨rfl, rfl⟩

/-- C5 (amended): parsing fails with `InvalidPeriodicity` exactly when the
string has fewer than 2 characters, or the leading substring is not
accepted by Python's `int` (optional surrounding whitespace, optional
sign, digits with single underscores between digits), or the trailing
character is not `d`/`w`/`m`, or the parsed integer is ≤ 0; on every
other input it returns the positive multiplier and the unit, and no
other failure kind exists. -/
theorem from_string_characterization (cs : List Char) :
    (Period.from_string cs = .error .invalid ↔
      (cs.length < 2 ∨ pyInt cs.dropLast = none ∨
        ∃ v, pyInt cs.dropLast = some v ∧
          (¬(cs.getLastD ' ' = 'd' ∨ cs.getLastD ' ' = 'w' ∨ cs.getLastD ' ' = 'm') ∨
            v ≤ 0))) ∧
    (∀ p : Period, Period.from_string cs = .ok p ↔
      (¬cs.length < 2 ∧ pyInt cs.dropLast = some p.value ∧ 0 < p.value ∧
        p.unit = cs.getLastD ' ' ∧
        (p.unit = 'd' ∨ p.unit = 'w' ∨ p.unit = 'm'))) := by
  by_cases hl : cs.length < 2
  · have hred : Period.from_string cs = .error .invalid := by
      unfold Period.from_string; rw [if_pos hl]
    refine ⟨iff_of_true hred (Or.inl hl), fun p => iff_of_false ?_ ?_⟩
    · rw [hred]; intro h; cases h
    · rintro ⟨h, -⟩; exact h hl
  · rcases hp : pyInt cs.dropLast with _ | v
    · have hred : Period.from_string cs = .error .invalid := by
        unfold Period.from_string; rw [if_neg hl, hp]
      refine ⟨iff_of_true hred (Or.inr (Or.inl rfl)), fun p => iff_of_false ?_ ?_⟩
      · rw [hred]; intro h; cases h
      · rintro ⟨-, hpv, -⟩
        simp at hpv
    · have hred : Period.from_string cs =
          if ¬(cs.getLastD ' ' = 'd' ∨ cs.getLastD ' ' = 'w' ∨ cs.getLastD ' ' = 'm') ∨
              v ≤ 0 then .error .invalid
          else .ok ⟨v, cs.getLastD ' '⟩ := by
        unfold Period.from_string; rw [if_neg hl, hp]
      by_cases hcond : ¬(cs.getLastD ' ' = 'd' ∨ cs.getLastD ' ' = 'w' ∨
          cs.getLastD ' ' = 'm') ∨ v ≤ 0
      · rw [if_pos hcond] at hred
        refine ⟨iff_of_true hred (Or.inr (Or.inr ⟨v, rfl, hcond⟩)),
          fun p => iff_of_false ?_ ?_⟩
        · rw [hred]; intro h; cases h
        · rintro ⟨-, hpv, hvpos, hunit, hmem⟩
          injection hpv with hpv
          rcases hcond with hbad | hle
          · rw [hunit] at hmem; exact hbad hmem
          · omega
      · rw [if_neg hcond] at hred
        push_neg at hcond
        obtain ⟨hU, hvpos⟩ := hcond
        constructor
        · refine iff_of_false ?_ ?_
          · rw [hred]; intro h; cases h
          · rintro (h | h | ⟨w, hw, hbad | hle⟩)
            · exact hl h
            · simp at h
            · exact hbad hU
            · injection hw with hw; omega
        · rintro ⟨pv, pu⟩
          rw [hred]
          constructor
          · intro h
            injection h with h
            injection h with h1 h2
            exact ⟨hl, congrArg some h1, h1 ▸ hvpos, h2.symm, h2 ▸ hU⟩
          · rintro ⟨-, hpv, -, hunit, -⟩
            injection hpv with hpv
            simp only [Except.ok.injEq, Period.mk.injEq]
            exact ⟨hpv, hunit.symm⟩

/-! ## Dates (`datetime.date`, `timedelta`, `relativedelta(months=...)`) -/

/-- A calendar date as Python's `datetime.date`. -/
structure PyDate where
  year : ℕ
  month : ℕ
  day : ℕ
deriving DecidableEq

/-- Gregorian leap-year rule. -/
def isLeapYear (y : ℕ) : Bool :=
  y % 4 = 0 && (y % 100 ≠ 0 || y % 400 = 0)

/-- Number of days in a month. -/
def daysInMonth (y m : ℕ) : ℕ :=
  if m = 2 then (if isLeapYear y then 29 else 28)
  else if m = 4 ∨ m = 6 ∨ m = 9 ∨ m = 11 then 30
  else 31

/-- Valid calendar dates (the representation invariant of `datetime.date`). -/
def ValidDate (d : PyDate) : Prop :=
  1 ≤ d.month ∧ d.month ≤ 12 ∧ 1 ≤ d.day ∧ d.day ≤ daysInMonth d.year d.month

instance (d : PyDate) : Decidable (ValidDate d) := by
  unfold ValidDate; exact inferInstance

/-- The successor date (one day later). -/
def nextDay (d : PyDate) : PyDate :=
  if d.day < daysInMonth d.year d.month then ⟨d.year, d.month, d.day + 1⟩
  else if d.month < 12 then ⟨d.year, d.month + 1, 1⟩
  else ⟨d.year + 1, 1, 1⟩

/-- `date + timedelta(days=n)` for a non-negative day count. -/
def addDays : PyDate → ℕ → PyDate
  | d, 0 => d
  | d, n + 1 => addDays (nextDay d) n

/-- `date + relativedelta(months=v)`: add `v` calendar months with
end-of-month clamping. -/
def addMonths (d : PyDate) (v : ℕ) : PyDate :=
  let t := d.month - 1 + v
  let y := d.year + t / 12
  let m := t % 12 + 1
  ⟨y, m, min d.day (daysInMonth y m)⟩

/-- Chronological (lexicographic) order on dates. -/
def dateLt (a b : PyDate) : Prop :=
  a.year < b.year ∨ (a.year = b.year ∧
    (a.month < b.month ∨ (a.month = b.month ∧ a.day < b.day)))

instance (a b : PyDate) : Decidable (dateLt a b) := by
  unfold dateLt; exact inferInstance

theorem dateLt_trans {a b c : PyDate} (h1 : dateLt a b) (h2 : dateLt b c) :
    dateLt a c := by
  unfold dateLt at *
  omega

theorem daysInMonth_pos (y m : ℕ) : 1 ≤ daysInMonth y m := by
  unfold daysInMonth
  split_ifs <;> omega

theorem dateLt_nextDay (d : PyDate) : dateLt d (nextDay d) := by
  unfold nextDay dateLt
  split_ifs <;> simp

theorem nextDay_valid {d : PyDate} (h : ValidDate d) : ValidDate (nextDay d) := by
  obtain ⟨h1, h2, h3, h4⟩ := h
  unfold nextDay
  split_ifs with ha hb
  · exact ⟨h1, h2, Nat.succ_le_succ (Nat.zero_le _), ha⟩
  · exact ⟨Nat.succ_le_succ (Nat.zero_le _), hb, le_refl 1, daysInMonth_pos _ _⟩
  · exact ⟨le_refl 1, by norm_num, le_refl 1, daysInMonth_pos _ _⟩

theorem dateLe_addDays (d : PyDate) (n : ℕ) :
    d = addDays d n ∨ dateLt d (addDays d n) := by
  induction n generalizing d with
  | zero => exact Or.inl rfl
  | succ n ih =>
    rcases ih (nextDay d) with h | h
    · exact Or.inr (h ▸ dateLt_nextDay d)
    · exact Or.inr (dateLt_trans (dateLt_nextDay d) h)

theorem dateLt_addDays (d : PyDate) {n : ℕ} (hn : 1 ≤ n) :
    dateLt d (addDays d n) := by
  obtain ⟨m, rfl⟩ : ∃ m, n = m + 1 := ⟨n - 1, by omega⟩
  show dateLt d (addDays (nextDay d) m)
  rcases dateLe_addDays (nextDay d) m with h | h
  · exact h ▸ dateLt_nextDay d
  · exact dateLt_trans (dateLt_nextDay d) h

theorem addDays_valid {d : PyDate} (h : ValidDate d) (n : ℕ) :
    ValidDate (addDays d n) := by
  induction n generalizing d with
  | zero => exact h
  | succ n ih => exact ih (nextDay_valid h)

theorem dateLt_addMonths {d : PyDate} (hv : ValidDate d) {v : ℕ} (h1 : 1 ≤ v) :
    dateLt d (addMonths d v) := by
  obtain ⟨hm1, hm2, -, -⟩ := hv
  unfold addMonths dateLt
  simp only
  have hdm := Nat.div_add_mod (d.month - 1 + v) 12
  have hlt := Nat.mod_lt (d.month - 1 + v) (show 0 < 12 by norm_num)
  omega

theorem addMonths_valid {d : PyDate} (hv : ValidDate d) (v : ℕ) :
    ValidDate (addMonths d v) := by
  obtain ⟨hm1, hm2, hd1, hd2⟩ := hv
  unfold addMonths ValidDate
  simp only
  have hlt := Nat.mod_lt (d.month - 1 + v) (show 0 < 12 by norm_num)
  refine ⟨by omega, by omega, ?_, min_le_right _ _⟩
  have := daysInMonth_pos (d.year + (d.month - 1 + v) / 12) ((d.month - 1 + v) % 12 + 1)
  omega

namespace DateCalculator

/-- `DateCalculator.add_period`: dispatch on the period unit.  The unit is
guaranteed to be `d`/`w`/`m` by `Period.from_string` before this is
reached; the source's defensive `ValueError` branch for any other unit is
modelled as the identity and is never exercised by the callers modelled
here. -/
def add_period (d : PyDate) (p : Period) : PyDate :=
  if p.unit = 'd' then addDays d p.value.toNat
  else if p.unit = 'w' then addDays d (7 * p.value.toNat)
  else if p.unit = 'm' then addMonths d p.value.toNat
  else d

end DateCalculator

theorem dateLt_add_period {d : PyDate} (hv : ValidDate d) {p : Period}
    (hu : p.unit = 'd' ∨ p.unit = 'w' ∨ p.unit = 'm') (hval : 1 ≤ p.value) :
    dateLt d (DateCalculator.add_period d p) := by
  have htn : 1 ≤ p.value.toNat := by omega
  unfold DateCalculator.add_period
  rcases hu with h | h | h
  · rw [if_pos h]
    exact dateLt_addDays d htn
  · rw [if_neg (by rw [h]; decide), if_pos h]
    exact dateLt_addDays d (by omega)
  · rw [if_neg (by rw [h]; decide), if_neg (by rw [h]; decide), if_pos h]
    exact dateLt_addMonths hv htn

theorem add_period_valid {d : PyDate} (hv : ValidDate d) (p : Period) :
    ValidDate (DateCalculator.add_period d p) := by
  unfold DateCalculator.add_period
  split_ifs <;> first
    | exact addDays_valid hv _
    | exact addMonths_valid hv _
    | exact hv

/-! ## Per-period interest rate (`InterestRateCalculator.rate_per_period`) -/

namespace InterestRateCalculator

/-- `_YEAR_FRACTION` lookup table (`KeyError` → `none`). -/
def _YEAR_FRACTION (u : Char) : Option ℚ :=
  if u = 'd' then some (1 / 365)
  else if u = 'w' then some (1 / 52)
  else if u = 'm' then some (1 / 12)
  else none

/-- `rate_per_period`: `annual_rate * (_YEAR_FRACTION[unit] * value)`,
quantized to 8 fractional digits, ROUND_HALF_UP; `ValueError` for an
unknown unit. -/
def rate_per_period (annual_rate : ℚ) (period : Period) :
    Except PeriodicityError ℚ :=
  match _YEAR_FRACTION period.unit with
  | none => .error .invalid
  | some f => .ok (quantize8 (annual_rate * (f * (period.value : ℚ))))

end InterestRateCalculator

/-- C8: for every annual rate and every period with a recognized unit, the
per-period rate is the exact rational product
`annualRate * (multiplier / divisor)` — divisor 365 for days, 52 for
weeks, 12 for months — quantized once at the end to 8 fractional digits
with round-half-up. -/
theorem rate_per_period_spec (annual_rate : ℚ) (period : Period) (divisor : ℚ)
    (h : (period.unit = 'd' ∧ divisor = 365) ∨ (period.unit = 'w' ∧ divisor = 52) ∨
      (period.unit = 'm' ∧ divisor = 12)) :
    InterestRateCalculator.rate_per_period annual_rate period =
      .ok (quantize8 (annual_rate * ((period.value : ℚ) / divisor))) := by
  have hfd : InterestRateCalculator._YEAR_FRACTION 'd' = some (1/365) := rfl
  have hfw : InterestRateCalculator._YEAR_FRACTION 'w' = some (1/52) := rfl
  have hfm : InterestRateCalculator._YEAR_FRACTION 'm' = some (1/12) := rfl
  unfold InterestRateCalculator.rate_per_period
  rcases h with ⟨hu, hd⟩ | ⟨hu, hd⟩ | ⟨hu, hd⟩ <;> subst hd <;> rw [hu]
  · rw [hfd]
    congr 2
    ring
  · rw [hfw]
    congr 2
    ring
  · rw [hfm]
    congr 2
    ring

/-- C8 (witness): a 12% annual rate with a 1-month period gives the
8-digit-rounded rate `0.12 * (1 / 12) = 0.01`. -/
theorem rate_per_period_spec_witness :
    InterestRateCalculator.rate_per_period (12/100) ⟨1, 'm'⟩ =
      .ok (quantize8 ((12/100) * ((1 : ℚ) / 12))) :=
  rate_per_period_spec (12/100) ⟨1, 'm'⟩ 12 (Or.inr (Or.inr ⟨rfl, rfl⟩))

/-! ## EMI (`EMICalculator.calculate`) -/

namespace EMICalculator

/-- `EMICalculator.calculate`: zero-rate branch divides the principal
evenly; otherwise the annuity formula
`rate * principal / (1 - (1 + rate) ^ (-n))`; both quantized to cents,
ROUND_HALF_UP.  `Decimal` division and power are modelled as exact
rational operations. -/
def calculate (principal rate_per_period : ℚ) (number_of_payments : ℕ) : ℚ :=
  if rate_per_period = 0 then
    quantize2 (principal / (number_of_payments : ℚ))
  else
    quantize2 (rate_per_period * principal /
      (1 - (1 + rate_per_period) ^ (-(number_of_payments : ℤ))))

end EMICalculator

theorem emi_denominator_pos {r : ℚ} (hr : 0 < r) (n : ℕ) (hn : 1 ≤ n) :
    0 < 1 - (1 + r) ^ (-(n : ℤ)) := by
  have h1 : (1 : ℚ) < 1 + r := by linarith
  have h2 : (1 : ℚ) < (1 + r) ^ n := one_lt_pow₀ h1 (by omega)
  have h3 : (1 + r) ^ (-(n : ℤ)) = ((1 + r) ^ n)⁻¹ := by
    rw [zpow_neg, zpow_natCast]
  rw [h3]
  have h4 : ((1 + r) ^ n)⁻¹ < 1 := inv_lt_one_of_one_lt₀ h2
  linarith

theorem emi_denominator_le_one {r : ℚ} (hr : 0 < r) (n : ℕ) :
    1 - (1 + r) ^ (-(n : ℤ)) ≤ 1 := by
  have h1 : (0 : ℚ) < 1 + r := by linarith
  have h2 : (0 : ℚ) ≤ (1 + r) ^ (-(n : ℤ)) := le_of_lt (zpow_pos h1 _)
  linarith

/-- C10: the EMI computation is total — for a positive rate the
denominator `1 - (1 + rate)^(-count)` is strictly positive (no division
by zero), and the zero-rate branch divides by `count ≥ 1 ≠ 0`; in both
branches `calculate` returns the quantized quotient. -/
theorem emi_total (P r : ℚ) (n : ℕ) (hn : 1 ≤ n) (hr : 0 ≤ r) :
    (r = 0 → ((n : ℚ) ≠ 0 ∧
      EMICalculator.calculate P r n = quantize2 (P / (n : ℚ)))) ∧
    (r ≠ 0 → (0 < 1 - (1 + r) ^ (-(n : ℤ)) ∧
      EMICalculator.calculate P r n =
        quantize2 (r * P / (1 - (1 + r) ^ (-(n : ℤ)))))) := by
  constructor
  · intro h0
    refine ⟨by exact_mod_cast Nat.one_le_iff_ne_zero.1 hn, ?_⟩
    unfold EMICalculator.calculate
    rw [if_pos h0]
  · intro hne
    have hpos : 0 < r := lt_of_le_of_ne hr (Ne.symm hne)
    refine ⟨emi_denominator_pos hpos n hn, ?_⟩
    unfold EMICalculator.calculate
    rw [if_neg hne]

/-- C10 (witness): at principal 1000, rate 0.01, 4 payments the
denominator is positive and the EMI is the quantized annuity quotient. -/
theorem emi_total_witness :
    0 < 1 - (1 + (1:ℚ)/100) ^ (-((4:ℕ) : ℤ)) ∧
    EMICalculator.calculate 1000 (1/100) 4 =
      quantize2 ((1:ℚ)/100 * 1000 / (1 - (1 + (1:ℚ)/100) ^ (-((4:ℕ) : ℤ)))) :=
  (emi_total 1000 (1/100) 4 (by norm_num) (by norm_num)).2 (by norm_num)

/-! ## Schedule generation (`DecliningBalanceScheduleGenerator`) -/

/-- One schedule line: a `LoanPayment` row.  `generate` emits rows with
`is_principal_fixed = false` (the model field's default). -/
structure SchedLine where
  payment_number : ℕ
  date : PyDate
  principal : ℚ
  interest : ℚ
  is_principal_fixed : Bool
deriving DecidableEq

/-- The loop body of `DecliningBalanceScheduleGenerator.generate`,
structurally recursive on the number of remaining lines (`fuel`); `fuel = 1`
means the line being emitted is the last one (`payment_number ==
number_of_payments` in the source), where the closure rule applies. -/
def genAux (rate emi : ℚ) (p : Period) :
    ℕ → ℕ → ℚ → PyDate → List SchedLine
  | 0, _, _, _ => []
  | fuel + 1, k, remaining_principal, payment_date =>
    let interest0 := quantize2 (remaining_principal * rate)
    let principal0 := quantize2 (emi - interest0)
    let principal := if fuel = 0 then remaining_principal else principal0
    let interest :=
      if fuel = 0 then quantize2 (emi - remaining_principal) else interest0
    ⟨k, payment_date, principal, interest, false⟩ ::
      genAux rate emi p fuel (k + 1) (remaining_principal - principal)
        (DateCalculator.add_period payment_date p)

/-- `generate_schedule` / `DecliningBalanceScheduleGenerator`: parse the
periodicity, derive the per-period rate and the EMI, then run the
generation loop from the full amount and the start date. -/
def generate_schedule (amount : ℚ) (start_date : PyDate)
    (number_of_payments : ℕ) (periodicity : List Char) (interest_rate : ℚ) :
    Except PeriodicityError (List SchedLine) :=
  match Period.from_string periodicity with
  | .error e => .error e
  | .ok p =>
    match InterestRateCalculator.rate_per_period interest_rate p with
    | .error e => .error e
    | .ok r =>
      .ok (genAux r (EMICalculator.calculate amount r number_of_payments) p
        number_of_payments 1 amount start_date)

/-- The schedule held by a successful result (used to state concrete
evaluations without threading `Except`). -/
def okSchedule {ε : Type} (e : Except ε (List SchedLine)) : List SchedLine :=
  match e with
  | .ok l => l
  | .error _ => []

theorem genAux_length (rate emi : ℚ) (p : Period) :
    ∀ fuel k b d, (genAux rate emi p fuel k b d).length = fuel := by
  intro fuel
  induction fuel with
  | zero => intro k b d; rfl
  | succ n ih => intro k b d; simp [genAux, ih]

theorem genAux_sum (rate emi : ℚ) (p : Period) :
    ∀ fuel k b d, 1 ≤ fuel →
      ((genAux rate emi p fuel k b d).map SchedLine.principal).sum = b := by
  intro fuel
  induction fuel with
  | zero => omega
  | succ n ih =>
    intro k b d _
    rcases Nat.eq_zero_or_pos n with hn | hn
    · subst hn
      simp [genAux]
    · have h1 : ¬(n = 0) := by omega
      simp only [genAux, h1, if_false, List.map_cons, List.sum_cons]
      rw [ih (k + 1) (b - quantize2 (emi - quantize2 (b * rate)))
        (DateCalculator.add_period d p) hn]
      ring

theorem genAux_map_number (rate emi : ℚ) (p : Period) :
    ∀ fuel k b d,
      (genAux rate emi p fuel k b d).map SchedLine.payment_number =
        List.range' k fuel := by
  intro fuel
  induction fuel with
  | zero => intro k b d; rfl
  | succ n ih =>
    intro k b d
    simp only [genAux, List.map_cons, List.range'_succ, List.cons.injEq]
    refine ⟨by simp, ?_⟩
    exact ih (k + 1) _ _

theorem genAux_unpinned (rate emi : ℚ) (p : Period) :
    ∀ fuel k b d l, l ∈ genAux rate emi p fuel k b d →
      l.is_principal_fixed = false := by
  intro fuel
  induction fuel with
  | zero => intro k b d l h; cases h
  | succ n ih =>
    intro k b d l h
    rcases List.mem_cons.1 h with h | h
    · rw [h]
    · exact ih _ _ _ _ h

theorem genAux_cents (rate emi : ℚ) (p : Period) :
    ∀ fuel k b d, IsCent b →
      ∀ l ∈ genAux rate emi p fuel k b d, IsCent l.principal := by
  intro fuel
  induction fuel with
  | zero => intro k b d _ l h; cases h
  | succ n ih =>
    intro k b d hb l h
    rcases List.mem_cons.1 h with h | h
    · rcases Nat.eq_zero_or_pos n with hn | hn
      · subst hn; rw [h]; exact hb
      · have h1 : ¬(n = 0) := by omega
        rw [h]
        simp only [h1, if_false]
        exact isCent_quantize2 _
    · refine ih _ _ _ (IsCent.sub hb ?_) l h
      split_ifs
      · exact hb
      · exact isCent_quantize2 _

theorem genAux_getLast (rate emi : ℚ) (p : Period) :
    ∀ fuel k b d, ∃ l,
      (genAux rate emi p (fuel + 1) k b d).getLast? = some l ∧
      l.interest = quantize2 (emi - l.principal) ∧
      l.is_principal_fixed = false := by
  intro fuel
  induction fuel with
  | zero =>
    intro k b d
    refine ⟨⟨k, d, b, quantize2 (emi - b), false⟩, ?_, rfl, rfl⟩
    simp [genAux]
  | succ n ih =>
    intro k b d
    obtain ⟨l, hl, hint, hfix⟩ := ih (k + 1)
      (b - quantize2 (emi - quantize2 (b * rate)))
      (DateCalculator.add_period d p)
    refine ⟨l, ?_, hint, hfix⟩
    have hcons : genAux rate emi p (n + 1 + 1) k b d =
        ⟨k, d, quantize2 (emi - quantize2 (b * rate)),
          quantize2 (b * rate), false⟩ ::
        genAux rate emi p (n + 1) (k + 1)
          (b - quantize2 (emi - quantize2 (b * rate)))
          (DateCalculator.add_period d p) := by
      simp [genAux]
    rw [hcons, List.getLast?_cons, hl]
    simp

theorem quantize8_mono {a b : ℚ} (h : a ≤ b) : quantize8 a ≤ quantize8 b := by
  unfold quantize8
  have h1 := roundHalfAwayZ_mono (show a * 100000000 ≤ b * 100000000 by linarith)
  have h2 : ((roundHalfAwayZ (a * 100000000) : ℚ)) ≤
      (roundHalfAwayZ (b * 100000000) : ℚ) := by exact_mod_cast h1
  linarith

theorem quantize8_zero : quantize8 0 = 0 := by
  unfold quantize8
  rw [show ((0:ℚ) * 100000000) = ((0:ℤ):ℚ) by norm_num, roundHalfAwayZ_intCast]
  norm_num

theorem quantize8_nonneg {a : ℚ} (h : 0 ≤ a) : 0 ≤ quantize8 a := by
  have := quantize8_mono h
  rwa [quantize8_zero] at this

/-- A successfully parsed period has a recognized unit and a positive
multiplier. -/
theorem from_string_ok {cs : List Char} {p : Period}
    (h : Period.from_string cs = .ok p) :
    (p.unit = 'd' ∨ p.unit = 'w' ∨ p.unit = 'm') ∧ 0 < p.value := by
  unfold Period.from_string at h
  by_cases hl : cs.length < 2
  · rw [if_pos hl] at h; cases h
  · rw [if_neg hl] at h
    rcases hp : pyInt cs.dropLast with _ | v <;> rw [hp] at h <;> dsimp only at h
    · cases h
    · by_cases hcond : ¬(cs.getLastD ' ' = 'd' ∨ cs.getLastD ' ' = 'w' ∨
          cs.getLastD ' ' = 'm') ∨ v ≤ 0
      · rw [if_pos hcond] at h; cases h
      · rw [if_neg hcond] at h
        injection h with h
        push_neg at hcond
        exact ⟨by rw [← h]; exact hcond.1, by rw [← h]; exact hcond.2⟩

/-- For a recognized unit the rate conversion always succeeds, with the
table fraction. -/
theorem rate_per_period_ok (annual_rate : ℚ) {p : Period}
    (hu : p.unit = 'd' ∨ p.unit = 'w' ∨ p.unit = 'm') :
    ∃ f : ℚ, 0 < f ∧ InterestRateCalculator.rate_per_period annual_rate p =
      .ok (quantize8 (annual_rate * (f * (p.value : ℚ)))) := by
  unfold InterestRateCalculator.rate_per_period InterestRateCalculator._YEAR_FRACTION
  rcases hu with h | h | h <;> rw [h]
  · exact ⟨1/365, by norm_num, rfl⟩
  · exact ⟨1/52, by norm_num, rfl⟩
  · exact ⟨1/12, by norm_num, rfl⟩

/-- A zero annual rate converts to a zero per-period rate. -/
theorem rate_per_period_zero {p : Period} {r : ℚ}
    (hu : p.unit = 'd' ∨ p.unit = 'w' ∨ p.unit = 'm')
    (h : InterestRateCalculator.rate_per_period 0 p = .ok r) : r = 0 := by
  obtain ⟨f, -, hok⟩ := rate_per_period_ok 0 hu
  rw [hok] at h
  injection h with h
  rw [← h, zero_mul, quantize8_zero]

/-- A non-negative annual rate and positive multiplier give a
non-negative per-period rate. -/
theorem rate_per_period_nonneg {annual_rate : ℚ} {p : Period} {r : ℚ}
    (ha : 0 ≤ annual_rate) (hv : 0 < p.value)
    (hu : p.unit = 'd' ∨ p.unit = 'w' ∨ p.unit = 'm')
    (h : InterestRateCalculator.rate_per_period annual_rate p = .ok r) :
    0 ≤ r := by
  obtain ⟨f, hf, hok⟩ := rate_per_period_ok annual_rate hu
  rw [hok] at h
  injection h with h
  rw [← h]
  refine quantize8_nonneg (mul_nonneg ha (mul_nonneg (le_of_lt hf) ?_))
  exact_mod_cast le_of_lt hv

theorem rate_zero_monthly :
    InterestRateCalculator.rate_per_period 0 ⟨1, 'm'⟩ = .ok 0 := by
  have hr0 : InterestRateCalculator.rate_per_period 0 ⟨1, 'm'⟩ =
      .ok (quantize8 (0 * (1/12 * ((1 : ℤ) : ℚ)))) := rfl
  rw [hr0]
  norm_num [quantize8, roundHalfAwayZ]

theorem genAux_head_date (rate emi : ℚ) (p : Period) (fuel k : ℕ) (b : ℚ)
    (d : PyDate) :
    ∃ l, (genAux rate emi p (fuel + 1) k b d).head? = some l ∧
      l.date = d ∧ l.payment_number = k := by
  rcases fuel with _ | n <;> exact ⟨_, rfl, rfl, rfl⟩

theorem genAux_date_chain (rate emi : ℚ) {p : Period}
    (hu : p.unit = 'd' ∨ p.unit = 'w' ∨ p.unit = 'm') (hval : 1 ≤ p.value) :
    ∀ fuel k b d, ValidDate d →
      List.Chain'
        (fun a b' => b'.date = DateCalculator.add_period a.date p ∧
          dateLt a.date b'.date)
        (genAux rate emi p fuel k b d) := by
  intro fuel
  induction fuel with
  | zero => intro k b d _; exact List.chain'_nil
  | succ n ih =>
    intro k b d hd
    rcases n with _ | m
    · simp [genAux]
    · rw [show genAux rate emi p (m + 1 + 1) k b d =
          ⟨k, d, quantize2 (emi - quantize2 (b * rate)),
            quantize2 (b * rate), false⟩ ::
          genAux rate emi p (m + 1) (k + 1)
            (b - quantize2 (emi - quantize2 (b * rate)))
            (DateCalculator.add_period d p) by simp [genAux]]
      rw [List.chain'_cons']
      constructor
      · intro y hy
        obtain ⟨l, hl, hld, -⟩ := genAux_head_date rate emi p m (k + 1)
          (b - quantize2 (emi - quantize2 (b * rate)))
          (DateCalculator.add_period d p)
        rw [hl] at hy
        injection hy with hy
        rw [← hy]
        exact ⟨hld, hld ▸ dateLt_add_period hd hu hval⟩
      · exact ih (k + 1) _ _ (add_period_valid hd p)

/-- C9: the generated lines are numbered exactly `1..count`, the first
line is dated at the start date, each successive line's date is the
previous date advanced by the period (days / 7-day weeks /
end-of-month-clamped months, as `DateCalculator.add_period` defines), and
the dates strictly increase. -/
theorem schedule_numbering_and_dates (amount : ℚ) (start_date : PyDate)
    (n : ℕ) (periodicity : List Char) (interest_rate : ℚ)
    {p : Period} {L : List SchedLine}
    (hn : 1 ≤ n) (hd : ValidDate start_date)
    (hp : Period.from_string periodicity = .ok p)
    (hL : generate_schedule amount start_date n periodicity interest_rate = .ok L) :
    L.map SchedLine.payment_number = List.range' 1 n ∧
    (∃ l0, L.head? = some l0 ∧ l0.date = start_date) ∧
    List.Chain'
      (fun a b' => b'.date = DateCalculator.add_period a.date p ∧
        dateLt a.date b'.date) L ∧
    L.Pairwise (fun a b' => dateLt a.date b'.date) := by
  obtain ⟨hu, hv⟩ := from_string_ok hp
  obtain ⟨f, -, hr⟩ := rate_per_period_ok interest_rate hu
  have hLval : L = genAux (quantize8 (interest_rate * (f * (p.value : ℚ))))
      (EMICalculator.calculate amount
        (quantize8 (interest_rate * (f * (p.value : ℚ)))) n)
      p n 1 amount start_date := by
    unfold generate_schedule at hL
    rw [hp] at hL
    dsimp only at hL
    rw [hr] at hL
    dsimp only at hL
    injection hL with hL
    exact hL.symm
  subst hLval
  refine ⟨genAux_map_number _ _ _ _ _ _ _, ?_, ?_, ?_⟩
  · obtain ⟨m, rfl⟩ : ∃ m, n = m + 1 := ⟨n - 1, by omega⟩
    obtain ⟨l0, h0, h0d, -⟩ := genAux_head_date _ _ p m 1 amount start_date
    exact ⟨l0, h0, h0d⟩
  · exact genAux_date_chain _ _ hu hv _ _ _ _ hd
  · have hch := genAux_date_chain
      (quantize8 (interest_rate * (f * (p.value : ℚ))))
      (EMICalculator.calculate amount
        (quantize8 (interest_rate * (f * (p.value : ℚ)))) n)
      hu hv n 1 amount start_date hd
    have hch2 := List.Chain'.imp
      (fun (a b' : SchedLine) h => h.2) hch
    haveI : IsTrans SchedLine (fun a b' => dateLt a.date b'.date) :=
      ⟨fun _ _ _ => dateLt_trans⟩
    exact List.chain'_iff_pairwise.1 hch2

/-- C9 (witness): a 3-line monthly schedule from 2027-01-31 — note the
end-of-month clamp to 2027-02-28 — is numbered 1..3 with strictly
increasing dates. -/
theorem schedule_numbering_and_dates_witness :
    (okSchedule (generate_schedule 100 ⟨2027, 1, 31⟩ 3 ['1', 'm'] 0)).map
        SchedLine.payment_number = List.range' 1 3 ∧
    (∃ l0, (okSchedule (generate_schedule 100 ⟨2027, 1, 31⟩ 3 ['1', 'm'] 0)).head? =
        some l0 ∧ l0.date = ⟨2027, 1, 31⟩) ∧
    List.Chain'
      (fun a b' => b'.date = DateCalculator.add_period a.date ⟨1, 'm'⟩ ∧
        dateLt a.date b'.date)
      (okSchedule (generate_schedule 100 ⟨2027, 1, 31⟩ 3 ['1', 'm'] 0)) ∧
    (okSchedule (generate_schedule 100 ⟨2027, 1, 31⟩ 3 ['1', 'm'] 0)).Pairwise
      (fun a b' => dateLt a.date b'.date) :=
  schedule_numbering_and_dates 100 ⟨2027, 1, 31⟩ 3 ['1', 'm'] 0
    (by norm_num) (by decide) rfl rfl

/-- Unfolding a successful `generate_schedule` run into the generation
loop. -/
theorem generate_schedule_ok {amount : ℚ} {start_date : PyDate} {n : ℕ}
    {periodicity : List Char} {interest_rate : ℚ} {p : Period} {r : ℚ}
    {L : List SchedLine}
    (hp : Period.from_string periodicity = .ok p)
    (hr : InterestRateCalculator.rate_per_period interest_rate p = .ok r)
    (hL : generate_schedule amount start_date n periodicity interest_rate = .ok L) :
    L = genAux r (EMICalculator.calculate amount r n) p n 1 amount start_date := by
  unfold generate_schedule at hL
  rw [hp] at hL
  dsimp only at hL
  rw [hr] at hL
  dsimp only at hL
  injection hL with hL
  exact hL.symm

/-- C4: the last generated line's principal is exactly the balance left
before it (amount minus the principals of all earlier lines), its
interest is `round2(emi - principal)`, and for a single-payment schedule
its principal is the whole amount. -/
theorem closure_rule (amount : ℚ) (start_date : PyDate) (n : ℕ)
    (periodicity : List Char) (interest_rate : ℚ) {p : Period} {r : ℚ}
    {L : List SchedLine}
    (hn : 1 ≤ n)
    (hp : Period.from_string periodicity = .ok p)
    (hr : InterestRateCalculator.rate_per_period interest_rate p = .ok r)
    (hL : generate_schedule amount start_date n periodicity interest_rate = .ok L) :
    ∃ l, L.getLast? = some l ∧
      l.principal = amount - ((L.dropLast.map SchedLine.principal).sum) ∧
      l.interest = quantize2 (EMICalculator.calculate amount r n - l.principal) ∧
      (n = 1 → l.principal = amount) := by
  have hLval := generate_schedule_ok hp hr hL
  obtain ⟨m, rfl⟩ : ∃ m, n = m + 1 := ⟨n - 1, by omega⟩
  obtain ⟨l, hlast, hint, -⟩ := genAux_getLast r
    (EMICalculator.calculate amount r (m + 1)) p m 1 amount start_date
  rw [← hLval] at hlast
  have hne : L ≠ [] := by
    intro hnil
    rw [hnil] at hlast
    cases hlast
  have hsum : ((L.map SchedLine.principal).sum) = amount := by
    rw [hLval]
    exact genAux_sum r _ p (m + 1) 1 amount start_date (by omega)
  have hlast' : L.getLast hne = l := by
    rw [List.getLast?_eq_getLast L hne] at hlast
    injection hlast
  have hdecomp : L.dropLast ++ [l] = L := by
    rw [← hlast']
    exact List.dropLast_append_getLast hne
  have hsum2 : ((L.dropLast.map SchedLine.principal).sum) + l.principal = amount := by
    rw [← hdecomp] at hsum
    simp only [List.map_append, List.sum_append, List.map_cons, List.map_nil,
      List.sum_cons, List.sum_nil] at hsum
    linarith
  refine ⟨l, hlast, by linarith, hint, ?_⟩
  intro h1
  have hlen : L.length = 1 := by
    rw [hLval, genAux_length]
    omega
  have hdl : L.dropLast = [] := by
    have := List.length_dropLast L
    rw [hlen] at this
    exact List.eq_nil_of_length_eq_zero this
  rw [hdl] at hsum2
  simp at hsum2
  linarith

/-- C4 (witness): scenario A — 1000.00 at 12% annual over 4 monthly
payments; the last line's principal closes the balance exactly and a
1-payment schedule would carry the full amount. -/
theorem closure_rule_witness :
    ∃ l, (okSchedule (generate_schedule 1000 ⟨2027, 1, 1⟩ 4 ['1', 'm']
        (12/100))).getLast? = some l ∧
      l.principal = 1000 -
        (((okSchedule (generate_schedule 1000 ⟨2027, 1, 1⟩ 4 ['1', 'm']
          (12/100))).dropLast.map SchedLine.principal).sum) ∧
      l.interest = quantize2 (EMICalculator.calculate 1000 (1/100) 4 - l.principal) ∧
      ((4 : ℕ) = 1 → l.principal = 1000) := by
  have hp : Period.from_string ['1', 'm'] = .ok ⟨1, 'm'⟩ := rfl
  have hr0 : InterestRateCalculator.rate_per_period (12/100) ⟨1, 'm'⟩ =
      .ok (quantize8 (12/100 * (1/12 * ((1 : ℤ) : ℚ)))) := rfl
  have hr : InterestRateCalculator.rate_per_period (12/100) ⟨1, 'm'⟩ =
      .ok (1/100) := by
    rw [hr0]
    norm_num [quantize8, roundHalfAwayZ]
  exact closure_rule 1000 ⟨2027, 1, 1⟩ 4 ['1', 'm'] (12/100) (by norm_num) hp hr rfl

theorem dropLast_cons_ne {α : Type} (a : α) {l : List α} (h : l ≠ []) :
    (a :: l).dropLast = a :: l.dropLast := by
  cases l with
  | nil => exact absurd rfl h
  | cons x xs => rfl

theorem genAux_ne_nil (rate emi : ℚ) (p : Period) {fuel : ℕ} (h : 1 ≤ fuel)
    (k : ℕ) (b : ℚ) (d : PyDate) : genAux rate emi p fuel k b d ≠ [] := by
  intro hnil
  have hlen := genAux_length rate emi p fuel k b d
  rw [hnil] at hlen
  simp at hlen
  omega

theorem genAux_zero_rate (emi : ℚ) (p : Period) :
    ∀ fuel k b d, ∀ l ∈ (genAux 0 emi p fuel k b d).dropLast,
      l.interest = 0 ∧ l.principal = quantize2 emi := by
  intro fuel
  induction fuel with
  | zero => intro k b d l h; simp [genAux] at h
  | succ n ih =>
    intro k b d l h
    rcases n with _ | m
    · simp [genAux] at h
    · have hT : genAux 0 emi p (m + 1 + 1) k b d =
          ⟨k, d, quantize2 (emi - quantize2 (b * 0)), quantize2 (b * 0), false⟩ ::
          genAux 0 emi p (m + 1) (k + 1)
            (b - quantize2 (emi - quantize2 (b * 0)))
            (DateCalculator.add_period d p) := by
        simp [genAux]
      rw [hT, dropLast_cons_ne _ (genAux_ne_nil _ _ _ (by omega) _ _ _)] at h
      rcases List.mem_cons.1 h with h | h
      · subst h
        constructor
        · show quantize2 (b * 0) = 0
          rw [mul_zero, quantize2_zero]
        · show quantize2 (emi - quantize2 (b * 0)) = quantize2 emi
          rw [mul_zero, quantize2_zero, sub_zero]
      · exact ih (k + 1) _ _ l h

/-- C3 (amended): with a zero annual rate, every line except the last has
interest 0 and principal `round2(principal / count)`; the last line's
principal is the closure-adjusted remaining balance and its interest is
`round2(emi - principal)` — which can be a nonzero rounding residue. -/
theorem zero_rate_schedule (amount : ℚ) (start_date : PyDate) (n : ℕ)
    (periodicity : List Char) {p : Period} {r : ℚ} {L : List SchedLine}
    (hn : 1 ≤ n)
    (hp : Period.from_string periodicity = .ok p)
    (hr : InterestRateCalculator.rate_per_period 0 p = .ok r)
    (hL : generate_schedule amount start_date n periodicity 0 = .ok L) :
    (∀ l ∈ L.dropLast, l.interest = 0 ∧
      l.principal = quantize2 (amount / (n : ℚ))) ∧
    ∃ l, L.getLast? = some l ∧
      l.principal = amount - ((L.dropLast.map SchedLine.principal).sum) ∧
      l.interest = quantize2 (quantize2 (amount / (n : ℚ)) - l.principal) := by
  obtain ⟨hu, hv⟩ := from_string_ok hp
  have hr0 : r = 0 := rate_per_period_zero hu hr
  subst hr0
  have hLval := generate_schedule_ok hp hr hL
  have hemi : EMICalculator.calculate amount 0 n = quantize2 (amount / (n : ℚ)) := by
    unfold EMICalculator.calculate
    rw [if_pos rfl]
  constructor
  · intro l hl
    rw [hLval] at hl
    obtain ⟨h1, h2⟩ := genAux_zero_rate (EMICalculator.calculate amount 0 n) p
      n 1 amount start_date l hl
    refine ⟨h1, ?_⟩
    rw [h2, hemi, quantize2_isCent (isCent_quantize2 _)]
  · obtain ⟨m, rfl⟩ : ∃ m, n = m + 1 := ⟨n - 1, by omega⟩
    obtain ⟨l, hlast, hint, -⟩ := genAux_getLast 0
      (EMICalculator.calculate amount 0 (m + 1)) p m 1 amount start_date
    rw [← hLval] at hlast
    have hne : L ≠ [] := by
      intro hnil; rw [hnil] at hlast; cases hlast
    have hsum : ((L.map SchedLine.principal).sum) = amount := by
      rw [hLval]
      exact genAux_sum 0 _ p (m + 1) 1 amount start_date (by omega)
    have hlast' : L.getLast hne = l := by
      rw [List.getLast?_eq_getLast L hne] at hlast
      injection hlast
    have hdecomp : L.dropLast ++ [l] = L := by
      rw [← hlast']
      exact List.dropLast_append_getLast hne
    have hsum2 : ((L.dropLast.map SchedLine.principal).sum) + l.principal = amount := by
      rw [← hdecomp] at hsum
      simp only [List.map_append, List.sum_append, List.map_cons, List.map_nil,
        List.sum_cons, List.sum_nil] at hsum
      linarith
    rw [hemi] at hint
    exact ⟨l, hlast, by linarith, hint⟩

/-- C3 (counterexample): 100.00 at rate 0 over 3 payments — the interests
are `[0, 0, -0.01]`: the last line's interest is the rounding residue
`round2(emi - principal) = round2(33.33 - 33.34)`, not 0, refuting
"every line's interest is 0". -/
theorem zero_rate_claim_counterexample :
    (okSchedule (generate_schedule 100 ⟨2027, 1, 1⟩ 3 ['1', 'm'] 0)).map
      SchedLine.interest = [0, 0, -1/100] ∧
    ¬ (∀ l ∈ okSchedule (generate_schedule 100 ⟨2027, 1, 1⟩ 3 ['1', 'm'] 0),
        l.interest = 0) := by
  have hp : Period.from_string ['1', 'm'] = .ok ⟨1, 'm'⟩ := rfl
  have hr0 : InterestRateCalculator.rate_per_period 0 ⟨1, 'm'⟩ =
      .ok (quantize8 (0 * (1/12 * ((1 : ℤ) : ℚ)))) := rfl
  have hr : InterestRateCalculator.rate_per_period 0 ⟨1, 'm'⟩ = .ok 0 := by
    rw [hr0]; norm_num [quantize8, roundHalfAwayZ]
  have hL : generate_schedule 100 ⟨2027, 1, 1⟩ 3 ['1', 'm'] 0 =
      .ok (genAux 0 (EMICalculator.calculate 100 0 3) ⟨1, 'm'⟩ 3 1 100
        ⟨2027, 1, 1⟩) := by
    unfold generate_schedule
    rw [hp]
    dsimp only
    rw [hr]
  have hemi : EMICalculator.calculate 100 0 3 = 3333/100 := by
    unfold EMICalculator.calculate
    rw [if_pos rfl]
    norm_num [quantize2, roundHalfAwayZ]
  have hmap : (okSchedule (generate_schedule 100 ⟨2027, 1, 1⟩ 3 ['1', 'm'] 0)).map
      SchedLine.interest = [0, 0, -1/100] := by
    rw [hL]
    dsimp only [okSchedule]
    rw [hemi]
    norm_num [genAux, quantize2, roundHalfAwayZ]
  refine ⟨hmap, fun hall => ?_⟩
  have hmem : (-1/100 : ℚ) ∈ (okSchedule (generate_schedule 100 ⟨2027, 1, 1⟩ 3
      ['1', 'm'] 0)).map SchedLine.interest := by
    rw [hmap]; simp
  obtain ⟨l, hlmem, hli⟩ := List.mem_map.1 hmem
  rw [hall l hlmem] at hli
  norm_num at hli

/-- C3 (witness for the amended theorem): the same 100.00 / 3 / 0%
schedule satisfies the amended description. -/
theorem zero_rate_schedule_witness :
    (∀ l ∈ (okSchedule (generate_schedule 100 ⟨2027, 1, 1⟩ 3 ['1', 'm']
        0)).dropLast, l.interest = 0 ∧
      l.principal = quantize2 (100 / ((3 : ℕ) : ℚ))) ∧
    ∃ l, (okSchedule (generate_schedule 100 ⟨2027, 1, 1⟩ 3 ['1', 'm']
        0)).getLast? = some l ∧
      l.principal = 100 - (((okSchedule (generate_schedule 100 ⟨2027, 1, 1⟩ 3
        ['1', 'm'] 0)).dropLast.map SchedLine.principal).sum) ∧
      l.interest = quantize2 (quantize2 (100 / ((3 : ℕ) : ℚ)) - l.principal) :=
  zero_rate_schedule 100 ⟨2027, 1, 1⟩ 3 ['1', 'm'] (by norm_num) rfl rfl rfl

/-- The quantized EMI dominates the quantized first-period interest: the
annuity quotient is at least `principal * rate`. -/
theorem emi_ge_interest {P r : ℚ} (hP : 0 ≤ P) (hr : 0 ≤ r) {n : ℕ}
    (hn : 1 ≤ n) :
    quantize2 (P * r) ≤ EMICalculator.calculate P r n := by
  unfold EMICalculator.calculate
  by_cases hr0 : r = 0
  · subst hr0
    rw [if_pos rfl, mul_zero]
    rw [quantize2_zero]
    refine quantize2_nonneg (div_nonneg hP ?_)
    exact_mod_cast Nat.zero_le n
  · rw [if_neg hr0]
    have hrpos : 0 < r := lt_of_le_of_ne hr (Ne.symm hr0)
    have hD : 0 < 1 - (1 + r) ^ (-(n : ℤ)) := emi_denominator_pos hrpos n hn
    have hD1 : 1 - (1 + r) ^ (-(n : ℤ)) ≤ 1 := emi_denominator_le_one hrpos n
    refine quantize2_mono ?_
    rw [le_div_iff hD]
    calc P * r * (1 - (1 + r) ^ (-(n : ℤ)))
        ≤ P * r * 1 := by
          refine mul_le_mul_of_nonneg_left hD1 (mul_nonneg hP hr)
      _ = r * P := by ring

/-- Every line except the last of the generation loop has non-negative
principal, as long as the running balance never exceeds the bound whose
quantized interest the EMI dominates. -/
theorem genAux_dropLast_nonneg {rate emi B : ℚ} (p : Period) (hr : 0 ≤ rate)
    (hB : quantize2 (B * rate) ≤ emi) :
    ∀ fuel k b d, b ≤ B →
      ∀ l ∈ (genAux rate emi p fuel k b d).dropLast, 0 ≤ l.principal := by
  intro fuel
  induction fuel with
  | zero => intro k b d _ l h; simp [genAux] at h
  | succ n ih =>
    intro k b d hbB l h
    rcases n with _ | m
    · simp [genAux] at h
    · have hT : genAux rate emi p (m + 1 + 1) k b d =
          ⟨k, d, quantize2 (emi - quantize2 (b * rate)),
            quantize2 (b * rate), false⟩ ::
          genAux rate emi p (m + 1) (k + 1)
            (b - quantize2 (emi - quantize2 (b * rate)))
            (DateCalculator.add_period d p) := by
        simp [genAux]
      have hint : quantize2 (b * rate) ≤ emi :=
        le_trans (quantize2_mono (mul_le_mul_of_nonneg_right hbB hr)) hB
      have hpr : 0 ≤ quantize2 (emi - quantize2 (b * rate)) :=
        quantize2_nonneg (by linarith)
      rw [hT, dropLast_cons_ne _ (genAux_ne_nil _ _ _ (by omega) _ _ _)] at h
      rcases List.mem_cons.1 h with h | h
      · subst h
        exact hpr
      · exact ih (k + 1) _ _ (by linarith) l h

/-- C7 (amended): for every valid `LoanTerms`, every generated line except
the last has a non-negative principal component; the last line carries
the closure remainder, which rounding over-amortization can drive
negative (see the counterexample), so the unrestricted invariant fails. -/
theorem generate_nonneg (amount : ℚ) (start_date : PyDate) (n : ℕ)
    (periodicity : List Char) (interest_rate : ℚ) {p : Period} {r : ℚ}
    {L : List SchedLine}
    (hn : 1 ≤ n) (hP : 0 < amount) (hir : 0 ≤ interest_rate)
    (hp : Period.from_string periodicity = .ok p)
    (hr : InterestRateCalculator.rate_per_period interest_rate p = .ok r)
    (hL : generate_schedule amount start_date n periodicity interest_rate = .ok L) :
    ∀ l ∈ L.dropLast, 0 ≤ l.principal := by
  obtain ⟨hu, hv⟩ := from_string_ok hp
  have hrn : 0 ≤ r := rate_per_period_nonneg hir hv hu hr
  have hLval := generate_schedule_ok hp hr hL
  rw [hLval]
  exact genAux_dropLast_nonneg p hrn
    (emi_ge_interest (le_of_lt hP) hrn hn) n 1 amount start_date (le_refl amount)

/-- The 100.00 / 3 / 0% schedule evaluates to the three lines 33.33,
33.33, 33.34 with a -0.01 closure interest residue. -/
theorem gen_demo_100_3 :
    generate_schedule 100 ⟨2027, 1, 1⟩ 3 ['1', 'm'] 0 =
      .ok [⟨1, ⟨2027, 1, 1⟩, 3333/100, 0, false⟩,
        ⟨2, ⟨2027, 2, 1⟩, 3333/100, 0, false⟩,
        ⟨3, ⟨2027, 3, 1⟩, 3334/100, -1/100, false⟩] := by
  have hp : Period.from_string ['1', 'm'] = .ok ⟨1, 'm'⟩ := rfl
  have hL : generate_schedule 100 ⟨2027, 1, 1⟩ 3 ['1', 'm'] 0 =
      .ok (genAux 0 (EMICalculator.calculate 100 0 3) ⟨1, 'm'⟩ 3 1 100
        ⟨2027, 1, 1⟩) := by
    unfold generate_schedule
    rw [hp]
    dsimp only
    rw [rate_zero_monthly]
  rw [hL]
  have hemi : EMICalculator.calculate 100 0 3 = 3333/100 := by
    unfold EMICalculator.calculate
    rw [if_pos rfl]
    norm_num [quantize2, roundHalfAwayZ]
  rw [hemi]
  congr 1
  norm_num [genAux, quantize2, roundHalfAwayZ, DateCalculator.add_period,
    addMonths, daysInMonth, isLeapYear,
    show ('m' : Char) ≠ 'd' from by decide, show ('m' : Char) ≠ 'w' from by decide]

/-- C7 (witness for the amended theorem): the first (non-last) line of the
100.00 / 3 / 0% schedule has a non-negative principal. -/
theorem generate_nonneg_witness :
    0 ≤ (⟨1, ⟨2027, 1, 1⟩, 3333/100, 0, false⟩ : SchedLine).principal := by
  refine generate_nonneg 100 ⟨2027, 1, 1⟩ 3 ['1', 'm'] 0 (by norm_num)
    (by norm_num) (by norm_num) rfl rate_zero_monthly gen_demo_100_3
    ⟨1, ⟨2027, 1, 1⟩, 3333/100, 0, false⟩ ?_
  show (⟨1, ⟨2027, 1, 1⟩, 3333/100, 0, false⟩ : SchedLine) ∈
    ([⟨1, ⟨2027, 1, 1⟩, 3333/100, 0, false⟩,
      ⟨2, ⟨2027, 2, 1⟩, 3333/100, 0, false⟩,
      ⟨3, ⟨2027, 3, 1⟩, 3334/100, -1/100, false⟩] :
      List SchedLine).dropLast
  simp

/-- C7 (counterexample): principal 0.02 over 4 payments at rate 0 is a
valid `LoanTerms` (principal > 0, rate ≥ 0, count ≥ 1), yet the EMI
rounds 0.005 up to 0.01 and the schedule over-amortizes: the principals
are `[0.01, 0.01, 0.01, -0.01]` — the last principal is negative. -/
theorem nonneg_claim_counterexample :
    (okSchedule (generate_schedule (2/100) ⟨2027, 1, 1⟩ 4 ['1', 'm'] 0)).map
      SchedLine.principal = [1/100, 1/100, 1/100, -1/100] ∧
    ¬ (∀ l ∈ okSchedule (generate_schedule (2/100) ⟨2027, 1, 1⟩ 4 ['1', 'm'] 0),
        0 ≤ l.principal) := by
  have hp : Period.from_string ['1', 'm'] = .ok ⟨1, 'm'⟩ := rfl
  have hr0 : InterestRateCalculator.rate_per_period 0 ⟨1, 'm'⟩ =
      .ok (quantize8 (0 * (1/12 * ((1 : ℤ) : ℚ)))) := rfl
  have hr : InterestRateCalculator.rate_per_period 0 ⟨1, 'm'⟩ = .ok 0 := by
    rw [hr0]; norm_num [quantize8, roundHalfAwayZ]
  have hL : generate_schedule (2/100) ⟨2027, 1, 1⟩ 4 ['1', 'm'] 0 =
      .ok (genAux 0 (EMICalculator.calculate (2/100) 0 4) ⟨1, 'm'⟩ 4 1 (2/100)
        ⟨2027, 1, 1⟩) := by
    unfold generate_schedule
    rw [hp]
    dsimp only
    rw [hr]
  have hemi : EMICalculator.calculate (2/100) 0 4 = 1/100 := by
    unfold EMICalculator.calculate
    rw [if_pos rfl]
    norm_num [quantize2, roundHalfAwayZ]
  have hmap : (okSchedule (generate_schedule (2/100) ⟨2027, 1, 1⟩ 4 ['1', 'm']
      0)).map SchedLine.principal = [1/100, 1/100, 1/100, -1/100] := by
    rw [hL]
    dsimp only [okSchedule]
    rw [hemi]
    norm_num [genAux, quantize2, roundHalfAwayZ]
  refine ⟨hmap, fun hall => ?_⟩
  have hmem : (-1/100 : ℚ) ∈ (okSchedule (generate_schedule (2/100) ⟨2027, 1, 1⟩ 4
      ['1', 'm'] 0)).map SchedLine.principal := by
    rw [hmap]; simp
  obtain ⟨l, hlmem, hli⟩ := List.mem_map.1 hmem
  have := hall l hlmem
  rw [hli] at this
  norm_num at this

/-! ## Principal reduction (`DecliningBalancePrincipalReducer`) -/

/-- The `Loan` row fields the reducer reads. -/
structure Loan where
  amount : ℚ
  interest_rate : ℚ
  periodicity : List Char
deriving DecidableEq

/-- Failure kinds of the reducer: the two `_validate` `ValueError`s are the
spec's `InvalidReduction`; `__init__`'s parse/convert `ValueError`s are
`InvalidPeriodicity`; `notFound` models the caller resolving a
nonexistent payment (never reached when the target is a line of the
schedule). -/
inductive ReduceError
  | invalidPeriodicity
  | notFound
  | invalidReduction
deriving DecidableEq

namespace DecliningBalancePrincipalReducer

/-- `_recalculate_from_payment`'s loop over the affected rows: `balance`
starts at the balance before the target; each row keeps its principal if
pinned, takes the whole balance if it is the last row, and otherwise
takes `round2(emi - interest)`; `interest = round2(balance * rate)` is
stored for every row; the balance is decremented and re-quantized. -/
def recalc (rate emi : ℚ) : ℚ → List SchedLine → List SchedLine
  | _, [] => []
  | balance, l :: rest =>
    let interest := quantize2 (balance * rate)
    let principal :=
      if l.is_principal_fixed then l.principal
      else if rest.isEmpty then balance
      else quantize2 (emi - interest)
    ⟨l.payment_number, l.date, principal, interest, l.is_principal_fixed⟩ ::
      recalc rate emi (quantize2 (balance - principal)) rest

/-- `_apply_principal_reduction` as a per-row function: the row whose
number is the target's gets the already-quantized reduced principal and
is pinned; every other row is untouched. -/
def updTarget (t : ℕ) (newP : ℚ) (l : SchedLine) : SchedLine :=
  if l.payment_number = t then
    ⟨l.payment_number, l.date, newP, l.interest, true⟩
  else l

/-- `_balance_before_payment`: loan amount minus the stored principals of
the rows before the target, quantized. -/
def balanceBefore (loan : Loan) (s : List SchedLine) (t : ℕ) : ℚ :=
  quantize2 (loan.amount -
    ((s.filter (fun l => l.payment_number < t)).map SchedLine.principal).sum)

/-- `DecliningBalancePrincipalReducer.execute` over a stored schedule `s`
(ordered by `payment_number`), target payment number `t` and reduction
amount.  Mirrors `__init__` (parse + rate), `_validate`,
`_apply_principal_reduction` (quantized subtraction, pin),
`_balance_before_payment` (amount minus principals of earlier rows,
quantized) and `_recalculate_from_payment` (fresh EMI over the affected
rows, then the recalculation walk).  The result is the full post-commit
schedule: untouched earlier rows followed by the rewritten affected rows
(the Python method returns only the affected rows; the database then
holds exactly this list). -/
def execute (loan : Loan) (s : List SchedLine) (t : ℕ) (reduce_amount : ℚ) :
    Except ReduceError (List SchedLine) :=
  match Period.from_string loan.periodicity with
  | .error _ => .error .invalidPeriodicity
  | .ok p =>
    match InterestRateCalculator.rate_per_period loan.interest_rate p with
    | .error _ => .error .invalidPeriodicity
    | .ok r =>
      match s.find? (fun l => l.payment_number == t) with
      | none => .error .notFound
      | some payment =>
        if reduce_amount ≤ 0 then .error .invalidReduction
        else if payment.principal ≤ reduce_amount then .error .invalidReduction
        else
          let s1 := s.map (updTarget t (quantize2 (payment.principal - reduce_amount)))
          let balance := balanceBefore loan s t
          let affected := s1.filter (fun l => t ≤ l.payment_number)
          let emi := EMICalculator.calculate balance r affected.length
          .ok ((s1.filter (fun l => l.payment_number < t)) ++
            recalc r emi balance affected)

/-- `transaction.atomic`: on any failure the stored schedule is unchanged;
on success it is replaced by the recomputed one. -/
def executeOrRollback (loan : Loan) (s : List SchedLine) (t : ℕ)
    (reduce_amount : ℚ) : List SchedLine :=
  match execute loan s t reduce_amount with
  | .ok s' => s'
  | .error _ => s

end DecliningBalancePrincipalReducer

/-- Schedules ordered by strictly increasing payment numbers (the
`order_by("payment_number")` + unique-together invariant of the stored
rows). -/
def SortedSched (s : List SchedLine) : Prop :=
  List.Pairwise (fun a b => a.payment_number < b.payment_number) s

/-- The balance trajectory along a recomputed list: `walkBal b out i` is
the balance on entry to row `i`, obtained by repeatedly subtracting (and
re-quantizing) the stored principals of `out`. -/
def walkBal : ℚ → List SchedLine → ℕ → ℚ
  | b, _, 0 => b
  | b, [], _ + 1 => b
  | b, l :: rest, i + 1 => walkBal (quantize2 (b - l.principal)) rest i

namespace DecliningBalancePrincipalReducer

/-- Reduction of `execute` once the periodicity parses, the rate converts
and the target row is found. -/
theorem execute_reduced {loan : Loan} {s : List SchedLine} {t : ℕ}
    {reduce_amount : ℚ} {p : Period} {r : ℚ} {payment : SchedLine}
    (hp : Period.from_string loan.periodicity = .ok p)
    (hr : InterestRateCalculator.rate_per_period loan.interest_rate p = .ok r)
    (hfind : s.find? (fun l => l.payment_number == t) = some payment) :
    execute loan s t reduce_amount =
      if reduce_amount ≤ 0 then .error .invalidReduction
      else if payment.principal ≤ reduce_amount then .error .invalidReduction
      else
        .ok (((s.map (updTarget t
            (quantize2 (payment.principal - reduce_amount)))).filter
            (fun l => l.payment_number < t)) ++
          recalc r
            (EMICalculator.calculate (balanceBefore loan s t) r
              ((s.map (updTarget t
                (quantize2 (payment.principal - reduce_amount)))).filter
                (fun l => t ≤ l.payment_number)).length)
            (balanceBefore loan s t)
            ((s.map (updTarget t
              (quantize2 (payment.principal - reduce_amount)))).filter
              (fun l => t ≤ l.payment_number))) := by
  unfold execute
  rw [hp]
  dsimp only
  rw [hr]
  dsimp only
  rw [hfind]

end DecliningBalancePrincipalReducer

/-- C2: with the target row found, `execute` fails with
`InvalidReduction` exactly when the amount is non-positive or at least
the target's current principal; on failure the stored schedule is
untouched (transactional rollback), and with
`0 < amount < target.principal` it succeeds. -/
theorem reduce_validation (loan : Loan) (s : List SchedLine) (t : ℕ)
    (reduce_amount : ℚ) {p : Period} {payment : SchedLine}
    (hp : Period.from_string loan.periodicity = .ok p)
    (hfind : s.find? (fun l => l.payment_number == t) = some payment) :
    (DecliningBalancePrincipalReducer.execute loan s t reduce_amount =
        .error .invalidReduction ↔
      (reduce_amount ≤ 0 ∨ payment.principal ≤ reduce_amount)) ∧
    ((reduce_amount ≤ 0 ∨ payment.principal ≤ reduce_amount) →
      DecliningBalancePrincipalReducer.executeOrRollback loan s t
        reduce_amount = s) ∧
    ((0 < reduce_amount ∧ reduce_amount < payment.principal) →
      ∃ s', DecliningBalancePrincipalReducer.execute loan s t reduce_amount =
        .ok s') := by
  obtain ⟨hu, -⟩ := from_string_ok hp
  obtain ⟨f, -, hr⟩ := rate_per_period_ok loan.interest_rate hu
  have hred := @DecliningBalancePrincipalReducer.execute_reduced
    loan s t reduce_amount p _ payment hp hr hfind
  by_cases h1 : reduce_amount ≤ 0
  · rw [if_pos h1] at hred
    refine ⟨iff_of_true hred (Or.inl h1), fun _ => ?_, fun hv => absurd hv ?_⟩
    · unfold DecliningBalancePrincipalReducer.executeOrRollback
      rw [hred]
    · rintro ⟨hpos, -⟩
      linarith
  · by_cases h2 : payment.principal ≤ reduce_amount
    · rw [if_neg h1, if_pos h2] at hred
      refine ⟨iff_of_true hred (Or.inr h2), fun _ => ?_, fun hv => absurd hv ?_⟩
      · unfold DecliningBalancePrincipalReducer.executeOrRollback
        rw [hred]
      · rintro ⟨-, hlt⟩
        linarith
    · rw [if_neg h1, if_neg h2] at hred
      refine ⟨iff_of_false ?_ ?_, fun hv => ?_, fun _ => ⟨_, hred⟩⟩
      · rw [hred]
        intro h
        cases h
      · rintro (h | h)
        · exact h1 h
        · exact h2 h
      · rcases hv with h | h
        · exact absurd h h1
        · exact absurd h h2

/-- C2 (witness): on a stored two-line schedule with principals 500.00, a
reduction of 600.00 on line 2 fails with `InvalidReduction` and leaves
the schedule unchanged, while 600 ≥ 500 makes success impossible. -/
theorem reduce_validation_witness :
    (DecliningBalancePrincipalReducer.execute ⟨1000, 0, ['1', 'm']⟩
        [⟨1, ⟨2027, 1, 1⟩, 500, 0, false⟩, ⟨2, ⟨2027, 2, 1⟩, 500, 0, false⟩]
        2 600 = .error .invalidReduction ↔
      ((600 : ℚ) ≤ 0 ∨ (⟨2, ⟨2027, 2, 1⟩, 500, 0, false⟩ : SchedLine).principal ≤ 600)) ∧
    (((600 : ℚ) ≤ 0 ∨ (⟨2, ⟨2027, 2, 1⟩, 500, 0, false⟩ : SchedLine).principal ≤ 600) →
      DecliningBalancePrincipalReducer.executeOrRollback ⟨1000, 0, ['1', 'm']⟩
        [⟨1, ⟨2027, 1, 1⟩, 500, 0, false⟩, ⟨2, ⟨2027, 2, 1⟩, 500, 0, false⟩]
        2 600 =
        [⟨1, ⟨2027, 1, 1⟩, 500, 0, false⟩, ⟨2, ⟨2027, 2, 1⟩, 500, 0, false⟩]) ∧
    (((0 : ℚ) < 600 ∧ (600 : ℚ) <
        (⟨2, ⟨2027, 2, 1⟩, 500, 0, false⟩ : SchedLine).principal) →
      ∃ s', DecliningBalancePrincipalReducer.execute ⟨1000, 0, ['1', 'm']⟩
        [⟨1, ⟨2027, 1, 1⟩, 500, 0, false⟩, ⟨2, ⟨2027, 2, 1⟩, 500, 0, false⟩]
        2 600 = .ok s') :=
  reduce_validation ⟨1000, 0, ['1', 'm']⟩
    [⟨1, ⟨2027, 1, 1⟩, 500, 0, false⟩, ⟨2, ⟨2027, 2, 1⟩, 500, 0, false⟩]
    2 600 rfl rfl

theorem sorted_unique_number {s : List SchedLine} (hs : SortedSched s)
    {a b : SchedLine} (ha : a ∈ s) (hb : b ∈ s)
    (hab : a.payment_number = b.payment_number) : a = b := by
  induction s with
  | nil => cases ha
  | cons x tail ih =>
    rw [SortedSched, List.pairwise_cons] at hs
    obtain ⟨hall, hs'⟩ := hs
    rcases List.mem_cons.1 ha with ha' | ha' <;>
      rcases List.mem_cons.1 hb with hb' | hb'
    · rw [ha', hb']
    · subst ha'
      have := hall b hb'
      omega
    · subst hb'
      have := hall a ha'
      omega
    · exact ih hs' ha' hb'

theorem sorted_filter_split {s : List SchedLine} (hs : SortedSched s) (t : ℕ) :
    s.filter (fun l => l.payment_number < t) ++
      s.filter (fun l => t ≤ l.payment_number) = s := by
  induction s with
  | nil => rfl
  | cons a tail ih =>
    rw [SortedSched, List.pairwise_cons] at hs
    obtain ⟨hall, hs'⟩ := hs
    by_cases h : a.payment_number < t
    · rw [List.filter_cons_of_pos (by simpa using h),
        List.filter_cons_of_neg (by simpa using (show ¬ t ≤ a.payment_number by omega)),
        List.cons_append, ih hs']
    · have h2 : t ≤ a.payment_number := by omega
      rw [List.filter_cons_of_neg (by simpa using h),
        List.filter_cons_of_pos (by simpa using h2)]
      have h3 : tail.filter (fun l => decide (l.payment_number < t)) = [] := by
        refine List.filter_eq_nil_iff.2 (fun b hb => ?_)
        have := hall b hb
        simp only [decide_eq_true_eq]
        omega
      have h4 : tail.filter (fun l => decide (t ≤ l.payment_number)) = tail := by
        refine List.filter_eq_self.2 (fun b hb => ?_)
        have := hall b hb
        simp only [decide_eq_true_eq]
        omega
      rw [h3, h4]
      rfl

theorem updTarget_number (t : ℕ) (newP : ℚ) (l : SchedLine) :
    (DecliningBalancePrincipalReducer.updTarget t newP l).payment_number = l.payment_number := by
  unfold DecliningBalancePrincipalReducer.updTarget
  split_ifs <;> rfl

theorem updTarget_date (t : ℕ) (newP : ℚ) (l : SchedLine) :
    (DecliningBalancePrincipalReducer.updTarget t newP l).date = l.date := by
  unfold DecliningBalancePrincipalReducer.updTarget
  split_ifs <;> rfl

theorem filter_lt_map_upd (s : List SchedLine) (t : ℕ) (newP : ℚ) :
    (s.map (DecliningBalancePrincipalReducer.updTarget t newP)).filter (fun l => l.payment_number < t) =
      s.filter (fun l => l.payment_number < t) := by
  induction s with
  | nil => rfl
  | cons a tail ih =>
    rw [List.map_cons]
    by_cases h : a.payment_number < t
    · rw [List.filter_cons_of_pos (by simpa [updTarget_number] using h),
        List.filter_cons_of_pos (by simpa using h), ih]
      have ha : DecliningBalancePrincipalReducer.updTarget t newP a = a := by
        unfold DecliningBalancePrincipalReducer.updTarget
        rw [if_neg (by omega)]
      rw [ha]
    · rw [List.filter_cons_of_neg (by simpa [updTarget_number] using h),
        List.filter_cons_of_neg (by simpa using h), ih]

theorem filter_ge_map_upd (s : List SchedLine) (t : ℕ) (newP : ℚ) :
    (s.map (DecliningBalancePrincipalReducer.updTarget t newP)).filter (fun l => t ≤ l.payment_number) =
      (s.filter (fun l => t ≤ l.payment_number)).map (DecliningBalancePrincipalReducer.updTarget t newP) := by
  induction s with
  | nil => rfl
  | cons a tail ih =>
    rw [List.map_cons]
    by_cases h : t ≤ a.payment_number
    · rw [List.filter_cons_of_pos (by simpa [updTarget_number] using h),
        List.filter_cons_of_pos (by simpa using h), List.map_cons, ih]
    · rw [List.filter_cons_of_neg (by simpa [updTarget_number] using h),
        List.filter_cons_of_neg (by simpa using h), ih]

theorem find?_target {s : List SchedLine} {t : ℕ} {payment : SchedLine}
    (hfind : s.find? (fun l => l.payment_number == t) = some payment) :
    payment ∈ s ∧ payment.payment_number = t := by
  refine ⟨List.mem_of_find?_eq_some hfind, ?_⟩
  have := List.find?_some hfind
  simpa using this

theorem sum_cents {s : List SchedLine} (h : ∀ l ∈ s, IsCent l.principal) :
    IsCent ((s.map SchedLine.principal).sum) := by
  induction s with
  | nil => exact isCent_zero
  | cons a tail ih =>
    rw [List.map_cons, List.sum_cons]
    exact IsCent.add (h a (List.mem_cons_self a tail))
      (ih (fun l hl => h l (List.mem_cons_of_mem a hl)))

theorem forall₂_mem_right {α β : Type} {R : α → β → Prop} :
    ∀ {xs : List α} {ys : List β}, List.Forall₂ R xs ys →
      ∀ y ∈ ys, ∃ x ∈ xs, R x y := by
  intro xs ys h
  induction h with
  | nil => intro y hy; cases hy
  | cons hR _ ih =>
    intro y hy
    rcases List.mem_cons.1 hy with hy' | hy'
    · exact ⟨_, List.mem_cons_self _ _, hy' ▸ hR⟩
    · obtain ⟨x, hx, hR'⟩ := ih y hy'
      exact ⟨x, List.mem_cons_of_mem _ hx, hR'⟩

theorem forall₂_getLast? {α β : Type} {R : α → β → Prop} :
    ∀ {xs : List α} {ys : List β}, List.Forall₂ R xs ys →
      ∀ y, ys.getLast? = some y → ∃ x, xs.getLast? = some x ∧ R x y := by
  intro xs ys h
  induction h with
  | nil => intro y hy; cases hy
  | @cons a b xs' ys' hR htail ih =>
    intro y hy
    rcases ys' with _ | ⟨b2, ys2⟩
    · cases htail
      injection hy with hy
      exact ⟨a, rfl, hy ▸ hR⟩
    · rw [List.getLast?_cons_cons] at hy
      obtain ⟨x, hx, hR'⟩ := ih y hy
      rcases xs' with _ | ⟨a2, xs2⟩
      · cases htail
      · rw [List.getLast?_cons_cons]
        exact ⟨x, hx, hR'⟩

theorem forall₂_map_number {xs ys : List SchedLine}
    (h : List.Forall₂ (fun l l' => l'.payment_number = l.payment_number) xs ys) :
    ys.map SchedLine.payment_number = xs.map SchedLine.payment_number := by
  induction h with
  | nil => rfl
  | cons hR _ ih =>
    rw [List.map_cons, List.map_cons, hR, ih]

theorem recalc_length (rate emi : ℚ) :
    ∀ (L : List SchedLine) (b : ℚ),
      (DecliningBalancePrincipalReducer.recalc rate emi b L).length = L.length := by
  intro L
  induction L with
  | nil => intro b; rfl
  | cons l rest ih =>
    intro b
    show (_ :: DecliningBalancePrincipalReducer.recalc rate emi _ rest).length = _
    rw [List.length_cons, List.length_cons, ih]

theorem recalc_forall₂ (rate emi : ℚ) :
    ∀ (L : List SchedLine) (b : ℚ),
      List.Forall₂ (fun l l' =>
        l'.payment_number = l.payment_number ∧ l'.date = l.date ∧
        l'.is_principal_fixed = l.is_principal_fixed ∧
        (l.is_principal_fixed = true → l'.principal = l.principal))
        L (DecliningBalancePrincipalReducer.recalc rate emi b L) := by
  intro L
  induction L with
  | nil => intro b; exact List.Forall₂.nil
  | cons l rest ih =>
    intro b
    refine List.Forall₂.cons ⟨rfl, rfl, rfl, ?_⟩ (ih _)
    intro hfix
    show (if l.is_principal_fixed then l.principal
      else if rest.isEmpty then b
      else quantize2 (emi - quantize2 (b * rate))) = l.principal
    rw [if_pos hfix]

theorem recalc_interest_walk (rate emi : ℚ) :
    ∀ (L : List SchedLine) (b : ℚ) (i : ℕ)
      (h : i < (DecliningBalancePrincipalReducer.recalc rate emi b L).length),
      ((DecliningBalancePrincipalReducer.recalc rate emi b L).get ⟨i, h⟩).interest =
        quantize2 (walkBal b
          (DecliningBalancePrincipalReducer.recalc rate emi b L) i * rate) := by
  intro L
  induction L with
  | nil =>
    intro b i h
    rw [show DecliningBalancePrincipalReducer.recalc rate emi b [] = [] from rfl] at h
    cases h
  | cons l rest ih =>
    intro b i h
    rcases i with _ | j
    · rfl
    · refine ih _ j ?_

theorem recalc_cents (rate emi : ℚ) :
    ∀ (L : List SchedLine) (b : ℚ),
      (∀ l ∈ L, IsCent l.principal) → IsCent b →
      ∀ l' ∈ DecliningBalancePrincipalReducer.recalc rate emi b L,
        IsCent l'.principal := by
  intro L
  induction L with
  | nil =>
    intro b _ _ l' h
    rw [show DecliningBalancePrincipalReducer.recalc rate emi b [] = [] from rfl] at h
    cases h
  | cons l rest ih =>
    intro b hcents hb l' h
    set P := (if l.is_principal_fixed then l.principal
      else if rest.isEmpty then b
      else quantize2 (emi - quantize2 (b * rate)))
    have hPcent : IsCent P := by
      show IsCent (if l.is_principal_fixed then l.principal
        else if rest.isEmpty then b
        else quantize2 (emi - quantize2 (b * rate)))
      split_ifs
      · exact hcents l (List.mem_cons_self l rest)
      · exact hb
      · exact isCent_quantize2 _
    rw [show DecliningBalancePrincipalReducer.recalc rate emi b (l :: rest) =
        ⟨l.payment_number, l.date, P, quantize2 (b * rate),
          l.is_principal_fixed⟩ ::
        DecliningBalancePrincipalReducer.recalc rate emi
          (quantize2 (b - P)) rest from rfl] at h
    rcases List.mem_cons.1 h with h | h
    · rw [h]
      exact hPcent
    · exact ih (quantize2 (b - P))
        (fun x hx => hcents x (List.mem_cons_of_mem l hx))
        (isCent_quantize2 _) l' h

theorem recalc_sum (rate emi : ℚ) :
    ∀ (L : List SchedLine) (b : ℚ), L ≠ [] →
      (∀ l ∈ L, IsCent l.principal) → IsCent b →
      (∃ llast, L.getLast? = some llast ∧ llast.is_principal_fixed = false) →
      ((DecliningBalancePrincipalReducer.recalc rate emi b L).map
        SchedLine.principal).sum = b := by
  intro L
  induction L with
  | nil => intro b h; exact absurd rfl h
  | cons l rest ih =>
    intro b _ hcents hb hlast
    rcases rest with _ | ⟨x, xs⟩
    · obtain ⟨llast, hl, hfix⟩ := hlast
      have hfl : l.is_principal_fixed = false := by
        have hll : llast = l := by
          rw [show ([l] : List SchedLine).getLast? = some l from rfl] at hl
          injection hl with hl
          exact hl.symm
        rw [← hll]
        exact hfix
      simp [DecliningBalancePrincipalReducer.recalc, hfl]
    · set P := (if l.is_principal_fixed then l.principal
        else if (x :: xs).isEmpty then b
        else quantize2 (emi - quantize2 (b * rate)))
      have hPcent : IsCent P := by
        show IsCent (if l.is_principal_fixed then l.principal
        else if (x :: xs).isEmpty then b
        else quantize2 (emi - quantize2 (b * rate)))
        split_ifs
        · exact hcents l (List.mem_cons_self _ _)
        · exact hb
        · exact isCent_quantize2 _
      have hbal : quantize2 (b - P) = b - P :=
        quantize2_isCent (IsCent.sub hb hPcent)
      have htaillast : ∃ llast, (x :: xs).getLast? = some llast ∧
          llast.is_principal_fixed = false := by
        obtain ⟨llast, hl, hfix⟩ := hlast
        rw [List.getLast?_cons_cons] at hl
        exact ⟨llast, hl, hfix⟩
      have htail := ih (quantize2 (b - P)) (by simp)
        (fun y hy => hcents y (List.mem_cons_of_mem l hy))
        (isCent_quantize2 _) htaillast
      rw [show DecliningBalancePrincipalReducer.recalc rate emi b
          (l :: x :: xs) =
          ⟨l.payment_number, l.date, P, quantize2 (b * rate),
            l.is_principal_fixed⟩ ::
          DecliningBalancePrincipalReducer.recalc rate emi
            (quantize2 (b - P)) (x :: xs) from rfl]
      rw [List.map_cons, List.sum_cons, htail, hbal]
      ring

theorem mapGetLast {α β : Type} (f : α → β) :
    ∀ l : List α, (l.map f).getLast? = (l.getLast?).map f := by
  intro l
  induction l with
  | nil => rfl
  | cons a t ih =>
    rcases t with _ | ⟨x, xs⟩
    · rfl
    · rw [List.map_cons, show ((x :: xs).map f) = f x :: xs.map f from rfl,
        List.getLast?_cons_cons, ← show ((x :: xs).map f) = f x :: xs.map f from rfl,
        ih, List.getLast?_cons_cons]

/-- A successful `execute` implies the periodicity parsed, the rate
converted, the target was found and the validation passed. -/
theorem execute_ok_inv {loan : Loan} {s : List SchedLine} {t : ℕ} {ra : ℚ}
    {s' : List SchedLine}
    (hok : DecliningBalancePrincipalReducer.execute loan s t ra = .ok s') :
    ∃ p r payment, Period.from_string loan.periodicity = .ok p ∧
      InterestRateCalculator.rate_per_period loan.interest_rate p = .ok r ∧
      s.find? (fun l => l.payment_number == t) = some payment ∧
      0 < ra ∧ ra < payment.principal := by
  unfold DecliningBalancePrincipalReducer.execute at hok
  rcases hp : Period.from_string loan.periodicity with e | p <;>
    rw [hp] at hok <;> dsimp only at hok
  · cases hok
  rcases hr : InterestRateCalculator.rate_per_period loan.interest_rate p
      with e | r <;> rw [hr] at hok <;> dsimp only at hok
  · cases hok
  rcases hf : s.find? (fun l => l.payment_number == t) with _ | payment <;>
    rw [hf] at hok <;> dsimp only at hok
  · cases hok
  by_cases h1 : ra ≤ 0
  · rw [if_pos h1] at hok; cases hok
  rw [if_neg h1] at hok
  by_cases h2 : payment.principal ≤ ra
  · rw [if_pos h2] at hok; cases hok
  exact ⟨p, r, payment, rfl, hr, hf, by linarith, by linarith⟩

/-- The per-line contract of a successful reduce call: numbers and dates
are untouched; the pinned flag is set exactly on the target; rows before
the target are untouched entirely; previously pinned rows other than the
target keep their principal; the target's principal becomes
`round2(principal - reduceAmount)`. -/
def ReduceLineRel (t : ℕ) (ra : ℚ) (l l' : SchedLine) : Prop :=
  l'.payment_number = l.payment_number ∧
  l'.date = l.date ∧
  l'.is_principal_fixed = (l.is_principal_fixed || (l.payment_number == t)) ∧
  (l.payment_number < t → l' = l) ∧
  (l.is_principal_fixed = true → l.payment_number ≠ t →
    l'.principal = l.principal) ∧
  (l.payment_number = t → l'.principal = quantize2 (l.principal - ra))

theorem recalc_map_upd_rel (rate emi ra : ℚ) (t : ℕ) (payment : SchedLine) :
    ∀ (B : List SchedLine) (b : ℚ),
      (∀ l ∈ B, t ≤ l.payment_number) →
      (∀ l ∈ B, l.payment_number = t → l = payment) →
      List.Forall₂ (ReduceLineRel t ra) B
        (DecliningBalancePrincipalReducer.recalc rate emi b
          (B.map (DecliningBalancePrincipalReducer.updTarget t
            (quantize2 (payment.principal - ra))))) := by
  intro B
  induction B with
  | nil => intro b _ _; exact List.Forall₂.nil
  | cons l rest ih =>
    intro b hge huniq
    rw [List.map_cons]
    refine List.Forall₂.cons ?_
      (ih _ (fun y hy => hge y (List.mem_cons_of_mem l hy))
        (fun y hy => huniq y (List.mem_cons_of_mem l hy)))
    by_cases hlt : l.payment_number = t
    · have hl : l = payment := huniq l (List.mem_cons_self _ _) hlt
      have hupd : DecliningBalancePrincipalReducer.updTarget t
          (quantize2 (payment.principal - ra)) l =
          ⟨l.payment_number, l.date, quantize2 (payment.principal - ra),
            l.interest, true⟩ := by
        unfold DecliningBalancePrincipalReducer.updTarget
        rw [if_pos hlt]
      rw [hupd]
      refine ⟨rfl, rfl, ?_, ?_, ?_, ?_⟩
      · show true = (l.is_principal_fixed || (l.payment_number == t))
        have : (l.payment_number == t) = true := by simp [hlt]
        rw [this, Bool.or_true]
      · intro hcon
        omega
      · intro _ hne
        exact absurd hlt hne
      · intro _
        show (if true = true then quantize2 (payment.principal - ra)
          else if (rest.map (DecliningBalancePrincipalReducer.updTarget t
            (quantize2 (payment.principal - ra)))).isEmpty then b
          else quantize2 (emi - quantize2 (b * rate))) =
          quantize2 (l.principal - ra)
        rw [if_pos rfl, ← hl]
    · have hupd : DecliningBalancePrincipalReducer.updTarget t
          (quantize2 (payment.principal - ra)) l = l := by
        unfold DecliningBalancePrincipalReducer.updTarget
        rw [if_neg hlt]
      rw [hupd]
      refine ⟨rfl, rfl, ?_, ?_, ?_, ?_⟩
      · show l.is_principal_fixed = (l.is_principal_fixed ||
          (l.payment_number == t))
        have : (l.payment_number == t) = false := by simp [hlt]
        rw [this, Bool.or_false]
      · intro hcon
        have := hge l (List.mem_cons_self _ _)
        omega
      · intro hfix _
        show (if l.is_principal_fixed then l.principal
          else if (rest.map (DecliningBalancePrincipalReducer.updTarget t
            (quantize2 (payment.principal - ra)))).isEmpty then b
          else quantize2 (emi - quantize2 (b * rate))) = l.principal
        rw [if_pos hfix]
      · intro hcon
        exact absurd hcon hlt

/-- C6 (amended): a successful reduce leaves every line before the target
untouched, preserves numbers and dates everywhere, sets the pinned flag
on exactly the target, keeps the principal of every previously pinned
line other than the target (the target's own principal — pinned or not —
becomes `round2(principal − reduceAmount)`), and stores
`interest = round2(balance × rate)` along the new balance trajectory for
every affected line. -/
theorem reduce_frame (loan : Loan) (s : List SchedLine) (t : ℕ) (ra : ℚ)
    {p : Period} {r : ℚ} {payment : SchedLine} {s' : List SchedLine}
    (hs : SortedSched s)
    (hp : Period.from_string loan.periodicity = .ok p)
    (hr : InterestRateCalculator.rate_per_period loan.interest_rate p = .ok r)
    (hfind : s.find? (fun l => l.payment_number == t) = some payment)
    (hok : DecliningBalancePrincipalReducer.execute loan s t ra = .ok s') :
    (s'.filter (fun l => l.payment_number < t) =
      s.filter (fun l => l.payment_number < t)) ∧
    List.Forall₂ (ReduceLineRel t ra) s s' ∧
    (∀ i (h : i < (s'.filter (fun l => t ≤ l.payment_number)).length),
      ((s'.filter (fun l => t ≤ l.payment_number)).get ⟨i, h⟩).interest =
        quantize2 (walkBal (DecliningBalancePrincipalReducer.balanceBefore loan s t)
          (s'.filter (fun l => t ≤ l.payment_number)) i * r)) := by
  have hred := @DecliningBalancePrincipalReducer.execute_reduced
    loan s t ra p r payment hp hr hfind
  rw [hok] at hred
  by_cases h1 : ra ≤ 0
  · rw [if_pos h1] at hred; cases hred
  rw [if_neg h1] at hred
  by_cases h2 : payment.principal ≤ ra
  · rw [if_pos h2] at hred; cases hred
  rw [if_neg h2] at hred
  injection hred with hseq
  rw [filter_lt_map_upd, filter_ge_map_upd] at hseq
  obtain ⟨hpmem, hpnum⟩ := find?_target hfind
  have huniq : ∀ l ∈ s.filter (fun l => t ≤ l.payment_number),
      l.payment_number = t → l = payment := by
    intro l hl hlt
    exact sorted_unique_number hs (List.mem_filter.1 hl).1 hpmem
      (by rw [hlt, hpnum])
  have hge : ∀ l ∈ s.filter (fun l => t ≤ l.payment_number),
      t ≤ l.payment_number := by
    intro l hl
    have := (List.mem_filter.1 hl).2
    simpa using this
  have hrel2 := recalc_map_upd_rel r
    (EMICalculator.calculate (DecliningBalancePrincipalReducer.balanceBefore loan s t) r
      ((s.filter (fun l => t ≤ l.payment_number)).map
        (DecliningBalancePrincipalReducer.updTarget t
          (quantize2 (payment.principal - ra)))).length)
    ra t payment (s.filter (fun l => t ≤ l.payment_number))
    (DecliningBalancePrincipalReducer.balanceBefore loan s t) hge huniq
  have hnum2 : ∀ l' ∈ DecliningBalancePrincipalReducer.recalc r
      (EMICalculator.calculate (DecliningBalancePrincipalReducer.balanceBefore loan s t) r
        ((s.filter (fun l => t ≤ l.payment_number)).map
          (DecliningBalancePrincipalReducer.updTarget t
            (quantize2 (payment.principal - ra)))).length)
      (DecliningBalancePrincipalReducer.balanceBefore loan s t)
      ((s.filter (fun l => t ≤ l.payment_number)).map
        (DecliningBalancePrincipalReducer.updTarget t
          (quantize2 (payment.principal - ra)))),
      t ≤ l'.payment_number := by
    intro l' hl'
    obtain ⟨l, hlmem, hR⟩ := forall₂_mem_right hrel2 l' hl'
    rw [hR.1]
    exact hge l hlmem
  constructor
  · rw [hseq, List.filter_append]
    have hA : (s.filter (fun l => l.payment_number < t)).filter
        (fun l => l.payment_number < t) =
        s.filter (fun l => l.payment_number < t) := by
      refine List.filter_eq_self.2 (fun l hl => (List.mem_filter.1 hl).2)
    have hB : (DecliningBalancePrincipalReducer.recalc r
        (EMICalculator.calculate (DecliningBalancePrincipalReducer.balanceBefore loan s t) r
          ((s.filter (fun l => t ≤ l.payment_number)).map
            (DecliningBalancePrincipalReducer.updTarget t
              (quantize2 (payment.principal - ra)))).length)
        (DecliningBalancePrincipalReducer.balanceBefore loan s t)
        ((s.filter (fun l => t ≤ l.payment_number)).map
          (DecliningBalancePrincipalReducer.updTarget t
            (quantize2 (payment.principal - ra))))).filter
        (fun l => l.payment_number < t) = [] := by
      refine List.filter_eq_nil_iff.2 (fun l' hl' => ?_)
      have := hnum2 l' hl'
      simp only [decide_eq_true_eq]
      omega
    rw [hA, hB, List.append_nil]
  constructor
  · rw [hseq]
    have hsplit := sorted_filter_split hs t
    have hrel1 : List.Forall₂ (ReduceLineRel t ra)
        (s.filter (fun l => l.payment_number < t))
        (s.filter (fun l => l.payment_number < t)) := by
      refine List.forall₂_same.2 (fun l hl => ?_)
      have hlt : l.payment_number < t := by
        have := (List.mem_filter.1 hl).2
        simpa using this
      have hbeq : (l.payment_number == t) = false := by
        simp only [beq_eq_false_iff_ne]
        omega
      exact ⟨rfl, rfl, by rw [hbeq, Bool.or_false], fun _ => rfl,
        fun _ _ => rfl, fun hcon => by omega⟩
    nth_rewrite 1 [← hsplit]
    exact List.rel_append hrel1 hrel2
  · have hC : s'.filter (fun l => t ≤ l.payment_number) =
        DecliningBalancePrincipalReducer.recalc r
          (EMICalculator.calculate
            (DecliningBalancePrincipalReducer.balanceBefore loan s t) r
            ((s.filter (fun l => t ≤ l.payment_number)).map
              (DecliningBalancePrincipalReducer.updTarget t
                (quantize2 (payment.principal - ra)))).length)
          (DecliningBalancePrincipalReducer.balanceBefore loan s t)
          ((s.filter (fun l => t ≤ l.payment_number)).map
            (DecliningBalancePrincipalReducer.updTarget t
              (quantize2 (payment.principal - ra)))) := by
      rw [hseq, List.filter_append]
      have hA0 : (s.filter (fun l => l.payment_number < t)).filter
          (fun l => t ≤ l.payment_number) = [] := by
        refine List.filter_eq_nil_iff.2 (fun l hl => ?_)
        have := (List.mem_filter.1 hl).2
        simp only [decide_eq_true_eq] at this ⊢
        omega
      rw [hA0, List.nil_append]
      refine List.filter_eq_self.2 (fun l' hl' => ?_)
      simp only [decide_eq_true_eq]
      exact hnum2 l' hl' 
    rw [hC]
    intro i h
    exact recalc_interest_walk r _ _ _ i h


/-- Generating 1000.00 at 0% over 2 monthly payments gives two 500.00
lines. -/
theorem gen_demo_1000_2 :
    generate_schedule 1000 ⟨2027, 1, 1⟩ 2 ['1', 'm'] 0 =
      .ok [⟨1, ⟨2027, 1, 1⟩, 500, 0, false⟩,
        ⟨2, ⟨2027, 2, 1⟩, 500, 0, false⟩] := by
  have hp : Period.from_string ['1', 'm'] = .ok ⟨1, 'm'⟩ := rfl
  have hL : generate_schedule 1000 ⟨2027, 1, 1⟩ 2 ['1', 'm'] 0 =
      .ok (genAux 0 (EMICalculator.calculate 1000 0 2) ⟨1, 'm'⟩ 2 1 1000
        ⟨2027, 1, 1⟩) := by
    unfold generate_schedule
    rw [hp]
    dsimp only
    rw [rate_zero_monthly]
  rw [hL]
  have hemi : EMICalculator.calculate 1000 0 2 = 500 := by
    unfold EMICalculator.calculate
    rw [if_pos rfl]
    norm_num [quantize2, roundHalfAwayZ]
  rw [hemi]
  congr 1
  norm_num [genAux, quantize2, roundHalfAwayZ, DateCalculator.add_period,
    addMonths, daysInMonth, isLeapYear,
    show ('m' : Char) ≠ 'd' from by decide, show ('m' : Char) ≠ 'w' from by decide]

/-- Reducing line 2 (the final line) of that schedule by 100.00: the
target is pinned at 400.00 and no later line can absorb the difference. -/
theorem exec_demo_t2 :
    DecliningBalancePrincipalReducer.execute ⟨1000, 0, ['1', 'm']⟩
      [⟨1, ⟨2027, 1, 1⟩, 500, 0, false⟩, ⟨2, ⟨2027, 2, 1⟩, 500, 0, false⟩]
      2 100 =
      .ok [⟨1, ⟨2027, 1, 1⟩, 500, 0, false⟩,
        ⟨2, ⟨2027, 2, 1⟩, 400, 0, true⟩] := by
  have hp : Period.from_string ['1', 'm'] = .ok ⟨1, 'm'⟩ := rfl
  have hred := @DecliningBalancePrincipalReducer.execute_reduced
    ⟨1000, 0, ['1', 'm']⟩
    [⟨1, ⟨2027, 1, 1⟩, 500, 0, false⟩, ⟨2, ⟨2027, 2, 1⟩, 500, 0, false⟩]
    2 100 ⟨1, 'm'⟩ 0 ⟨2, ⟨2027, 2, 1⟩, 500, 0, false⟩ hp rate_zero_monthly rfl
  rw [if_neg (by norm_num), if_neg (by norm_num)] at hred
  rw [hred]
  congr 1
  norm_num [DecliningBalancePrincipalReducer.updTarget,
    DecliningBalancePrincipalReducer.balanceBefore,
    DecliningBalancePrincipalReducer.recalc,
    EMICalculator.calculate, quantize2, roundHalfAwayZ]

/-- Reducing line 1 of that schedule by 100.00: line 1 is pinned at
400.00 and the final line closes at 600.00. -/
theorem exec_demo_t1 :
    DecliningBalancePrincipalReducer.execute ⟨1000, 0, ['1', 'm']⟩
      [⟨1, ⟨2027, 1, 1⟩, 500, 0, false⟩, ⟨2, ⟨2027, 2, 1⟩, 500, 0, false⟩]
      1 100 =
      .ok [⟨1, ⟨2027, 1, 1⟩, 400, 0, true⟩,
        ⟨2, ⟨2027, 2, 1⟩, 600, 0, false⟩] := by
  have hp : Period.from_string ['1', 'm'] = .ok ⟨1, 'm'⟩ := rfl
  have hred := @DecliningBalancePrincipalReducer.execute_reduced
    ⟨1000, 0, ['1', 'm']⟩
    [⟨1, ⟨2027, 1, 1⟩, 500, 0, false⟩, ⟨2, ⟨2027, 2, 1⟩, 500, 0, false⟩]
    1 100 ⟨1, 'm'⟩ 0 ⟨1, ⟨2027, 1, 1⟩, 500, 0, false⟩ hp rate_zero_monthly rfl
  rw [if_neg (by norm_num), if_neg (by norm_num)] at hred
  rw [hred]
  congr 1
  norm_num [DecliningBalancePrincipalReducer.updTarget,
    DecliningBalancePrincipalReducer.balanceBefore,
    DecliningBalancePrincipalReducer.recalc,
    EMICalculator.calculate, quantize2, roundHalfAwayZ]

/-- Reducing the already-pinned line 1 again by another 100.00: its
principal moves from 400.00 to 300.00 even though it was pinned. -/
theorem exec_demo_t1_again :
    DecliningBalancePrincipalReducer.execute ⟨1000, 0, ['1', 'm']⟩
      [⟨1, ⟨2027, 1, 1⟩, 400, 0, true⟩, ⟨2, ⟨2027, 2, 1⟩, 600, 0, false⟩]
      1 100 =
      .ok [⟨1, ⟨2027, 1, 1⟩, 300, 0, true⟩,
        ⟨2, ⟨2027, 2, 1⟩, 700, 0, false⟩] := by
  have hp : Period.from_string ['1', 'm'] = .ok ⟨1, 'm'⟩ := rfl
  have hred := @DecliningBalancePrincipalReducer.execute_reduced
    ⟨1000, 0, ['1', 'm']⟩
    [⟨1, ⟨2027, 1, 1⟩, 400, 0, true⟩, ⟨2, ⟨2027, 2, 1⟩, 600, 0, false⟩]
    1 100 ⟨1, 'm'⟩ 0 ⟨1, ⟨2027, 1, 1⟩, 400, 0, true⟩ hp rate_zero_monthly rfl
  rw [if_neg (by norm_num), if_neg (by norm_num)] at hred
  rw [hred]
  congr 1
  norm_num [DecliningBalancePrincipalReducer.updTarget,
    DecliningBalancePrincipalReducer.balanceBefore,
    DecliningBalancePrincipalReducer.recalc,
    EMICalculator.calculate, quantize2, roundHalfAwayZ]

/-- C6 (counterexample): reduce line 1 by 100 (pinning it at 400.00),
then reduce line 1 again by 100.  The second call's target is a
previously pinned line with sequence ≥ the target, yet its stored
principal changes from 400.00 to 300.00 — so "every previously pinned
line with sequence ≥ the target retains its stored principal" fails as
stated; the carve-out for the target itself is required. -/
theorem pin_stability_counterexample :
    DecliningBalancePrincipalReducer.execute ⟨1000, 0, ['1', 'm']⟩
      [⟨1, ⟨2027, 1, 1⟩, 500, 0, false⟩, ⟨2, ⟨2027, 2, 1⟩, 500, 0, false⟩]
      1 100 =
      .ok [⟨1, ⟨2027, 1, 1⟩, 400, 0, true⟩,
        ⟨2, ⟨2027, 2, 1⟩, 600, 0, false⟩] ∧
    DecliningBalancePrincipalReducer.execute ⟨1000, 0, ['1', 'm']⟩
      [⟨1, ⟨2027, 1, 1⟩, 400, 0, true⟩, ⟨2, ⟨2027, 2, 1⟩, 600, 0, false⟩]
      1 100 =
      .ok [⟨1, ⟨2027, 1, 1⟩, 300, 0, true⟩,
        ⟨2, ⟨2027, 2, 1⟩, 700, 0, false⟩] ∧
    (⟨1, ⟨2027, 1, 1⟩, 400, 0, true⟩ : SchedLine).is_principal_fixed = true ∧
    (⟨1, ⟨2027, 1, 1⟩, 300, 0, true⟩ : SchedLine).principal ≠
      (⟨1, ⟨2027, 1, 1⟩, 400, 0, true⟩ : SchedLine).principal :=
  ⟨exec_demo_t1, exec_demo_t1_again, rfl, by norm_num⟩

/-- C6 (witness for the amended theorem): reducing line 2 of the
1000.00 / 2 / 0% schedule by 100.00 satisfies all frame conditions. -/
theorem reduce_frame_witness :
    (([⟨1, ⟨2027, 1, 1⟩, 500, 0, false⟩, ⟨2, ⟨2027, 2, 1⟩, 400, 0, true⟩] :
        List SchedLine).filter (fun l => l.payment_number < 2) =
      ([⟨1, ⟨2027, 1, 1⟩, 500, 0, false⟩, ⟨2, ⟨2027, 2, 1⟩, 500, 0, false⟩] :
        List SchedLine).filter (fun l => l.payment_number < 2)) ∧
    List.Forall₂ (ReduceLineRel 2 100)
      [⟨1, ⟨2027, 1, 1⟩, 500, 0, false⟩, ⟨2, ⟨2027, 2, 1⟩, 500, 0, false⟩]
      [⟨1, ⟨2027, 1, 1⟩, 500, 0, false⟩, ⟨2, ⟨2027, 2, 1⟩, 400, 0, true⟩] ∧
    (∀ i (h : i < (([⟨1, ⟨2027, 1, 1⟩, 500, 0, false⟩,
        ⟨2, ⟨2027, 2, 1⟩, 400, 0, true⟩] : List SchedLine).filter
        (fun l => 2 ≤ l.payment_number)).length),
      ((([⟨1, ⟨2027, 1, 1⟩, 500, 0, false⟩, ⟨2, ⟨2027, 2, 1⟩, 400, 0, true⟩] :
          List SchedLine).filter (fun l => 2 ≤ l.payment_number)).get
          ⟨i, h⟩).interest =
        quantize2 (walkBal
          (DecliningBalancePrincipalReducer.balanceBefore ⟨1000, 0, ['1', 'm']⟩
            [⟨1, ⟨2027, 1, 1⟩, 500, 0, false⟩, ⟨2, ⟨2027, 2, 1⟩, 500, 0, false⟩]
            2)
          (([⟨1, ⟨2027, 1, 1⟩, 500, 0, false⟩, ⟨2, ⟨2027, 2, 1⟩, 400, 0,
            true⟩] : List SchedLine).filter (fun l => 2 ≤ l.payment_number))
          i * 0)) :=
  reduce_frame ⟨1000, 0, ['1', 'm']⟩
    [⟨1, ⟨2027, 1, 1⟩, 500, 0, false⟩, ⟨2, ⟨2027, 2, 1⟩, 500, 0, false⟩] 2 100
    (by norm_num [SortedSched, List.pairwise_cons]) rfl rate_zero_monthly rfl
    exec_demo_t2

/-- The state invariant of claim C1: the stored principals sum to the
loan amount, every principal is an exact cent amount, the rows are
strictly ordered by payment number, and the final row is unpinned (so
the closure rule still owns it). -/
def SchedInv (amount : ℚ) (s : List SchedLine) : Prop :=
  ((s.map SchedLine.principal).sum = amount) ∧
  (∀ l ∈ s, IsCent l.principal) ∧
  SortedSched s ∧
  (∃ llast, s.getLast? = some llast ∧ llast.is_principal_fixed = false)

/-- C1 (amended): the principal-sum invariant (together with exact cent
amounts, row ordering, and an unpinned final row) holds after schedule
generation, and is preserved by every successful principal reduction
whose target is not the final row.  (Reducing the final row itself breaks
the sum — see the counterexample — because the pinned branch overrides
the closure rule.) -/
theorem sum_invariant :
    (∀ (amount : ℚ) (start_date : PyDate) (n : ℕ) (periodicity : List Char)
        (interest_rate : ℚ) (p : Period) (r : ℚ) (L : List SchedLine),
      1 ≤ n → IsCent amount →
      Period.from_string periodicity = .ok p →
      InterestRateCalculator.rate_per_period interest_rate p = .ok r →
      generate_schedule amount start_date n periodicity interest_rate = .ok L →
      SchedInv amount L) ∧
    (∀ (loan : Loan) (s : List SchedLine) (t : ℕ) (ra : ℚ)
        (llast : SchedLine) (s' : List SchedLine),
      SchedInv loan.amount s → IsCent loan.amount →
      s.getLast? = some llast → t < llast.payment_number →
      DecliningBalancePrincipalReducer.execute loan s t ra = .ok s' →
      SchedInv loan.amount s') := by
  constructor
  · intro amount start_date n per ir p r L hn hc hp hr hL
    have hLval := generate_schedule_ok hp hr hL
    subst hLval
    refine ⟨genAux_sum r _ p n 1 amount start_date hn,
      fun l hl => genAux_cents r _ p n 1 amount start_date hc l hl, ?_, ?_⟩
    · have h1 := List.pairwise_lt_range' 1 n
      rw [← genAux_map_number r (EMICalculator.calculate amount r n) p n 1
        amount start_date] at h1
      exact List.pairwise_map.1 h1
    · obtain ⟨m, rfl⟩ : ∃ m, n = m + 1 := ⟨n - 1, by omega⟩
      obtain ⟨l, hl, -, hfix⟩ := genAux_getLast r
        (EMICalculator.calculate amount r (m + 1)) p m 1 amount start_date
      exact ⟨l, hl, hfix⟩
  · intro loan s t ra llast s' hInv hamt hlast htlt hok
    obtain ⟨p, r, payment, hp, hr, hfind, hra1, hra2⟩ := execute_ok_inv hok
    obtain ⟨hsum, hcents, hsort, hunp⟩ := hInv
    have hred := @DecliningBalancePrincipalReducer.execute_reduced
      loan s t ra p r payment hp hr hfind
    rw [hok, if_neg (by linarith), if_neg (by linarith)] at hred
    injection hred with hseq
    rw [filter_lt_map_upd, filter_ge_map_upd] at hseq
    obtain ⟨hpmem, hpnum⟩ := find?_target hfind
    have hBmem : payment ∈ s.filter (fun l => t ≤ l.payment_number) :=
      List.mem_filter.2 ⟨hpmem, by simp [hpnum]⟩
    have hBne : s.filter (fun l => t ≤ l.payment_number) ≠ [] :=
      List.ne_nil_of_mem hBmem
    have hB1ne : (s.filter (fun l => t ≤ l.payment_number)).map
        (DecliningBalancePrincipalReducer.updTarget t
          (quantize2 (payment.principal - ra))) ≠ [] := by
      intro h
      exact hBne (List.map_eq_nil_iff.1 h)
    have hsplit := sorted_filter_split hsort t
    have hlastB : (s.filter (fun l => t ≤ l.payment_number)).getLast? =
        some llast := by
      rw [← hsplit, List.getLast?_append_of_ne_nil _ hBne] at hlast
      exact hlast
    have hllne : llast.payment_number ≠ t := by omega
    have hlastB1 : ((s.filter (fun l => t ≤ l.payment_number)).map
        (DecliningBalancePrincipalReducer.updTarget t
          (quantize2 (payment.principal - ra)))).getLast? = some llast := by
      rw [mapGetLast, hlastB]
      show some (DecliningBalancePrincipalReducer.updTarget t
        (quantize2 (payment.principal - ra)) llast) = some llast
      have : DecliningBalancePrincipalReducer.updTarget t
          (quantize2 (payment.principal - ra)) llast = llast := by
        unfold DecliningBalancePrincipalReducer.updTarget
        rw [if_neg hllne]
      rw [this]
    have hllfix : llast.is_principal_fixed = false := by
      obtain ⟨llast', hl', hfix'⟩ := hunp
      rw [hlast] at hl'
      injection hl' with hl'
      rw [← hl'] at hfix'
      exact hfix'
    have hcentsB1 : ∀ l' ∈ (s.filter (fun l => t ≤ l.payment_number)).map
        (DecliningBalancePrincipalReducer.updTarget t
          (quantize2 (payment.principal - ra))), IsCent l'.principal := by
      intro l' hl'
      obtain ⟨l, hlmem, hmapeq⟩ := List.mem_map.1 hl'
      rw [← hmapeq]
      unfold DecliningBalancePrincipalReducer.updTarget
      split_ifs
      · exact isCent_quantize2 _
      · exact hcents l (List.mem_filter.1 hlmem).1
    have hsumrec := recalc_sum r
      (EMICalculator.calculate (DecliningBalancePrincipalReducer.balanceBefore
        loan s t) r
        ((s.filter (fun l => t ≤ l.payment_number)).map
          (DecliningBalancePrincipalReducer.updTarget t
            (quantize2 (payment.principal - ra)))).length)
      ((s.filter (fun l => t ≤ l.payment_number)).map
        (DecliningBalancePrincipalReducer.updTarget t
          (quantize2 (payment.principal - ra))))
      (DecliningBalancePrincipalReducer.balanceBefore loan s t)
      hB1ne hcentsB1 (isCent_quantize2 _) ⟨llast, hlastB1, hllfix⟩
    have hpaidcent : IsCent (((s.filter (fun l => l.payment_number < t)).map
        SchedLine.principal).sum) :=
      sum_cents (fun l hl => hcents l (List.mem_filter.1 hl).1)
    have hb0 : DecliningBalancePrincipalReducer.balanceBefore loan s t =
        loan.amount - ((s.filter (fun l => l.payment_number < t)).map
          SchedLine.principal).sum := by
      unfold DecliningBalancePrincipalReducer.balanceBefore
      exact quantize2_isCent (IsCent.sub hamt hpaidcent)
    have hrecne : DecliningBalancePrincipalReducer.recalc r
        (EMICalculator.calculate (DecliningBalancePrincipalReducer.balanceBefore
          loan s t) r
          ((s.filter (fun l => t ≤ l.payment_number)).map
            (DecliningBalancePrincipalReducer.updTarget t
              (quantize2 (payment.principal - ra)))).length)
        (DecliningBalancePrincipalReducer.balanceBefore loan s t)
        ((s.filter (fun l => t ≤ l.payment_number)).map
          (DecliningBalancePrincipalReducer.updTarget t
            (quantize2 (payment.principal - ra)))) ≠ [] := by
      intro h
      have hlen := recalc_length r
        (EMICalculator.calculate (DecliningBalancePrincipalReducer.balanceBefore
          loan s t) r
          ((s.filter (fun l => t ≤ l.payment_number)).map
            (DecliningBalancePrincipalReducer.updTarget t
              (quantize2 (payment.principal - ra)))).length)
        ((s.filter (fun l => t ≤ l.payment_number)).map
          (DecliningBalancePrincipalReducer.updTarget t
            (quantize2 (payment.principal - ra))))
        (DecliningBalancePrincipalReducer.balanceBefore loan s t)
      rw [h] at hlen
      simp only [List.length_nil] at hlen
      exact hB1ne (List.length_eq_zero.1 hlen.symm)
    refine ⟨?_, ?_, ?_, ?_⟩
    · rw [hseq, List.map_append, List.sum_append, hsumrec, hb0]
      ring
    · intro l' hl'
      rw [hseq] at hl'
      rcases List.mem_append.1 hl' with h | h
      · exact hcents l' (List.mem_filter.1 h).1
      · exact recalc_cents _ _ _ _ hcentsB1 (isCent_quantize2 _) l' h
    · have hnum1 : List.Forall₂
          (fun l l' => l'.payment_number = l.payment_number)
          ((s.filter (fun l => t ≤ l.payment_number)).map
            (DecliningBalancePrincipalReducer.updTarget t
              (quantize2 (payment.principal - ra))))
          (DecliningBalancePrincipalReducer.recalc r
            (EMICalculator.calculate
              (DecliningBalancePrincipalReducer.balanceBefore loan s t) r
              ((s.filter (fun l => t ≤ l.payment_number)).map
                (DecliningBalancePrincipalReducer.updTarget t
                  (quantize2 (payment.principal - ra)))).length)
            (DecliningBalancePrincipalReducer.balanceBefore loan s t)
            ((s.filter (fun l => t ≤ l.payment_number)).map
              (DecliningBalancePrincipalReducer.updTarget t
                (quantize2 (payment.principal - ra))))) :=
        (recalc_forall₂ _ _ _ _).imp (fun _ _ h => h.1)
      have hmapnum : s'.map SchedLine.payment_number =
          s.map SchedLine.payment_number := by
        rw [hseq, List.map_append, forall₂_map_number hnum1, List.map_map]
        have : ((s.filter (fun l => t ≤ l.payment_number)).map
            (fun l => (DecliningBalancePrincipalReducer.updTarget t
              (quantize2 (payment.principal - ra)) l).payment_number)) =
            (s.filter (fun l => t ≤ l.payment_number)).map
              SchedLine.payment_number := by
          refine List.map_congr_left (fun l _ => ?_)
          exact updTarget_number t _ l
        rw [show (SchedLine.payment_number ∘
            DecliningBalancePrincipalReducer.updTarget t
              (quantize2 (payment.principal - ra))) =
            (fun l => (DecliningBalancePrincipalReducer.updTarget t
              (quantize2 (payment.principal - ra)) l).payment_number)
          from rfl, this, ← List.map_append]
        rw [hsplit]
      have h1 : (s.map SchedLine.payment_number).Pairwise (· < ·) :=
        List.pairwise_map.2 hsort
      rw [← hmapnum] at h1
      exact List.pairwise_map.1 h1
    · obtain ⟨y, hy⟩ : ∃ y, (DecliningBalancePrincipalReducer.recalc r
          (EMICalculator.calculate
            (DecliningBalancePrincipalReducer.balanceBefore loan s t) r
            ((s.filter (fun l => t ≤ l.payment_number)).map
              (DecliningBalancePrincipalReducer.updTarget t
                (quantize2 (payment.principal - ra)))).length)
          (DecliningBalancePrincipalReducer.balanceBefore loan s t)
          ((s.filter (fun l => t ≤ l.payment_number)).map
            (DecliningBalancePrincipalReducer.updTarget t
              (quantize2 (payment.principal - ra))))).getLast? = some y :=
        ⟨_, List.getLast?_eq_getLast _ hrecne⟩
      obtain ⟨x, hx, hR⟩ := forall₂_getLast? (recalc_forall₂ _ _ _ _) y hy
      refine ⟨y, ?_, ?_⟩
      · rw [hseq, List.getLast?_append_of_ne_nil _ hrecne]
        exact hy
      · rw [hlastB1] at hx
        injection hx with hx
        rw [hR.2.2.1, ← hx]
        exact hllfix

/-- C1 (counterexample): generate 1000.00 / 2 / 0%, then reduce the last
line (line 2) by 100.00 — a reduction satisfying all of `reduce`'s
preconditions.  The target is pinned, so the closure rule never runs and
the stored principals sum to 900.00 ≠ 1000.00: the sum invariant does
not survive a reduction whose target is the final line. -/
theorem sum_invariant_counterexample :
    generate_schedule 1000 ⟨2027, 1, 1⟩ 2 ['1', 'm'] 0 =
      .ok [⟨1, ⟨2027, 1, 1⟩, 500, 0, false⟩,
        ⟨2, ⟨2027, 2, 1⟩, 500, 0, false⟩] ∧
    DecliningBalancePrincipalReducer.execute ⟨1000, 0, ['1', 'm']⟩
      [⟨1, ⟨2027, 1, 1⟩, 500, 0, false⟩, ⟨2, ⟨2027, 2, 1⟩, 500, 0, false⟩]
      2 100 =
      .ok [⟨1, ⟨2027, 1, 1⟩, 500, 0, false⟩,
        ⟨2, ⟨2027, 2, 1⟩, 400, 0, true⟩] ∧
    ((([⟨1, ⟨2027, 1, 1⟩, 500, 0, false⟩, ⟨2, ⟨2027, 2, 1⟩, 400, 0, true⟩] :
      List SchedLine).map SchedLine.principal).sum = 900) ∧
    ((900 : ℚ) ≠ 1000) :=
  ⟨gen_demo_1000_2, exec_demo_t2, by norm_num, by norm_num⟩

/-- C1 (witness for the amended theorem): the invariant holds for the
generated 1000.00 / 2 / 0% schedule and survives the non-final-target
reduction of line 1 by 100.00. -/
theorem sum_invariant_witness :
    SchedInv 1000
      [⟨1, ⟨2027, 1, 1⟩, 500, 0, false⟩, ⟨2, ⟨2027, 2, 1⟩, 500, 0, false⟩] ∧
    SchedInv 1000
      [⟨1, ⟨2027, 1, 1⟩, 400, 0, true⟩, ⟨2, ⟨2027, 2, 1⟩, 600, 0, false⟩] := by
  have h1 := sum_invariant.1 1000 ⟨2027, 1, 1⟩ 2 ['1', 'm'] 0 ⟨1, 'm'⟩ 0
    [⟨1, ⟨2027, 1, 1⟩, 500, 0, false⟩, ⟨2, ⟨2027, 2, 1⟩, 500, 0, false⟩]
    (by norm_num) ⟨100000, by norm_num⟩ rfl rate_zero_monthly gen_demo_1000_2
  have h2 := sum_invariant.2 ⟨1000, 0, ['1', 'm']⟩
    [⟨1, ⟨2027, 1, 1⟩, 500, 0, false⟩, ⟨2, ⟨2027, 2, 1⟩, 500, 0, false⟩]
    1 100 ⟨2, ⟨2027, 2, 1⟩, 500, 0, false⟩
    [⟨1, ⟨2027, 1, 1⟩, 400, 0, true⟩, ⟨2, ⟨2027, 2, 1⟩, 600, 0, false⟩]
    h1 ⟨100000, by norm_num⟩ rfl (by norm_num) exec_demo_t1
  exact ⟨h1, h2⟩
